import Mathlib

/-
Verification of the OpenTelemetry configuration parser, cross-reference
validator and pipeline-graph builder of the opentelemetry-playground
repository.

The embedding follows the TypeScript sources:
  * client/src/lib (YAML parser module): parseOTelConfig, validateConfig,
    extractComponents, extractPipelines, parseComponentName, getLineNumber.
  * client/src/components/PipelineVisualization.tsx (connector-aware
    version): generateFlowElements.

JavaScript dynamic values are modelled by `JValue` (with an explicit
`undef` constructor for JS undefined).  The YAML library is external; its
output for a given document text is modelled by `YamlDoc`: the list of
syntax errors reported by the library plus the concrete syntax tree
(`YNode`) carrying the 1-based line number of every mapping key, from
which the decoded plain value is obtained exactly as `Document.toJS`
does.  A thrown JS exception is modelled by `Except.error`; member access
on null/undefined is the one throwing operation the translated code
performs.
-/

set_option autoImplicit false
set_option maxRecDepth 4000
set_option maxHeartbeats 1000000

namespace OtelPlayground

/-- JavaScript runtime values as produced by `Document.toJS`.  `undef`
models JS undefined (distinct from null: both are nullish, but e.g.
`String(undefined)` differs from `String(null)`). -/
inductive JValue where
  | undef : JValue
  | null : JValue
  | bool : Bool → JValue
  | num : Int → JValue
  | str : String → JValue
  | arr : List JValue → JValue
  | obj : List (String × JValue) → JValue
deriving Repr, Inhabited

/-- JS truthiness: undefined, null, false, 0 and the empty string are
falsy; every object (including empty arrays and empty objects) is
truthy. -/
def JValue.truthy : JValue → Bool
  | .undef => false
  | .null => false
  | .bool b => b
  | .num n => n != 0
  | .str s => s != ""
  | .arr _ => true
  | .obj _ => true

/-- JS `typeof v === 'object'`: true for null, arrays and plain objects. -/
def JValue.isObjectType : JValue → Bool
  | .null => true
  | .arr _ => true
  | .obj _ => true
  | _ => false

/-- JS member access `v[k]`: throws a TypeError on null/undefined,
returns the stored value on objects (object keys are unique in JS; for
robustness the last binding wins, matching JS object construction),
and yields undefined on primitives and on named properties of arrays. -/
def jsGet : JValue → String → Except String JValue
  | .undef, _ => .error "TypeError"
  | .null, _ => .error "TypeError"
  | .obj kvs, k => .ok ((kvs.reverse.lookup k).getD .undef)
  | _, _ => .ok (.undef)

/-- JS optional chaining `v?.[k]` (also used for member access at call
sites where the receiver is statically known to be non-nullish). -/
def jsGetSafe (v : JValue) (k : String) : JValue :=
  match jsGet v k with
  | .ok r => r
  | .error _ => (.undef)

/-- JS `Object.entries`.  The translated code only ever calls this after
a `typeof === 'object'` plus truthiness guard, so only objects and
arrays occur. -/
def jsEntries : JValue → List (String × JValue)
  | .obj kvs => kvs
  | .arr xs => xs.enum.map (fun p => (toString p.1, p.2))
  | _ => []

mutual

/-- JS `String(v)` for the values the code converts (the `.map(String)`
calls are applied to YAML sequence elements, which are scalars in every
configuration the claims concern; the array branch uses the element
conversion itself, a harmless simplification of `Array.prototype.join`
that renders nested null/undefined as their scalar spellings). -/
def jsString : JValue → String
  | .undef => "undefined"
  | .null => "null"
  | .bool b => if b then "true" else "false"
  | .num n => toString n
  | .str s => s
  | .arr xs => String.intercalate "," (jsStringList xs)
  | .obj _ => "[object Object]"

/-- jsString mapped over array elements. -/
def jsStringList : List JValue → List String
  | [] => []
  | x :: xs => jsString x :: jsStringList xs

end

/-- YAML concrete syntax tree with per-key source lines.  A mapping item
is (key scalar text, 1-based line of the key token or none when the key
range is unavailable, value node).  The source computes the line by
counting newlines before the key token's range offset; the model carries
the resulting number directly. -/
inductive YNode where
  | scalar : JValue → YNode
  | seq : List YNode → YNode
  | map : List (String × Option Nat × YNode) → YNode
deriving Repr, Inhabited

mutual

/-- Document.toJS on the modelled tree. -/
def YNode.toJS : YNode → JValue
  | .scalar v => v
  | .seq xs => .arr (toJSList xs)
  | .map items => .obj (toJSMap items)

/-- toJS mapped over a sequence. -/
def toJSList : List YNode → List JValue
  | [] => []
  | x :: xs => x.toJS :: toJSList xs

/-- toJS mapped over mapping items, dropping line metadata. -/
def toJSMap : List (String × Option Nat × YNode) → List (String × JValue)
  | [] => []
  | it :: rest => (it.1, it.2.2.toJS) :: toJSMap rest

end

/-- Loop body of getLineNumber.  The source iterates over the keys of
`path`; on a mapping node it looks up the key among the items, returns
the key token's line when the key's first occurrence in `path` is the
final position (the source tests `path.indexOf(key) === path.length - 1`
rather than the loop position), descends otherwise, and returns
undefined when the key is absent; on a non-mapping node the loop body
does nothing and proceeds to the next key with the same node.  Falls
through to undefined after the loop. -/
def glnStep (path : List String) : YNode → List String → Option Nat
  | _, [] => none
  | node, key :: rest =>
    match node with
    | .map items =>
      match items.find? (fun it => it.1 == key) with
      | some it =>
        if path.indexOf key == path.length - 1 then it.2.1
        else glnStep path it.2.2 rest
      | none => none
    | other => glnStep path other rest
termination_by _ l => l.length

/-- getLineNumber from the source: resolve a structural path to the
1-based line of the key token introducing its last segment. -/
def getLineNumber (root : YNode) (path : List String) : Option Nat :=
  glnStep path root path

/-- One step of JS `String.prototype.split` with a single-character
separator, over the character list. -/
def splitChar (sep : Char) : List Char → List (List Char)
  | [] => [[]]
  | c :: rest =>
    let r := splitChar sep rest
    if c == sep then [] :: r
    else (c :: r.headD []) :: r.tail

/-- JS `s.split(sep)` for a single-character separator. -/
def jsSplit (s : String) (sep : Char) : List String :=
  (splitChar sep s.data).map (fun l => String.mk l)

/-- JS falsy-trim test `!s.trim()`: the text contains only whitespace
characters (or is empty). -/
def isBlankText (s : String) : Bool :=
  s.data.all (fun c => c.isWhitespace)

/-- OTelComponent record. -/
structure OTelComponent where
  id : String
  type : String
  name : String
  fullName : String
  config : JValue
  lineNumber : Option Nat
deriving Repr

/-- parseComponentName: split `type[/name]` on `/`; the bare type is the
part before the first slash, the name is the rest rejoined (or the bare
type when there is no slash). -/
def parseComponentName (fullName : String) : String × String :=
  let parts := jsSplit fullName '/'
  (parts.headD "",
   if parts.length > 1 then String.intercalate "/" (parts.drop 1) else parts.headD "")

/-- extractComponents: one record per key of the section object; empty
when the section is falsy or not of object type.  A falsy component
value is replaced by an empty object, mirroring `(config as ...) || {}`. -/
def extractComponents (sect : JValue) (type : String) (doc : YNode)
    (sectionName : String) : List OTelComponent :=
  if sect.truthy && sect.isObjectType then
    (jsEntries sect).map (fun e =>
      let pn := parseComponentName e.1
      { id := type ++ "-" ++ e.1
        type := type
        name := pn.1
        fullName := e.1
        config := if e.2.truthy then e.2 else .obj []
        lineNumber := getLineNumber doc [sectionName, e.1] })
  else []

/-- OTelPipeline record. -/
structure OTelPipeline where
  id : String
  name : String
  type : String
  receivers : List String
  processors : List String
  exporters : List String
  lineNumber : Option Nat
deriving Repr, DecidableEq

/-- The `Array.isArray(x) ? x.map(String) : []` pattern. -/
def asStringList : JValue → List String
  | .arr xs => xs.map jsString
  | _ => []

/-- extractPipelines: one record per key of service.pipelines; empty
when the service section or its pipelines member is falsy or not of
object type.  The signal type is the pipeline key up to the first `/`. -/
def extractPipelines (service : JValue) (doc : YNode) : List OTelPipeline :=
  if service.truthy && service.isObjectType then
    let pipelines := jsGetSafe service "pipelines"
    if pipelines.truthy && pipelines.isObjectType then
      (jsEntries pipelines).map (fun e =>
        { id := "pipeline-" ++ e.1
          name := e.1
          type := (jsSplit e.1 '/').headD ""
          receivers := asStringList (jsGetSafe e.2 "receivers")
          processors := asStringList (jsGetSafe e.2 "processors")
          exporters := asStringList (jsGetSafe e.2 "exporters")
          lineNumber := getLineNumber doc ["service", "pipelines", e.1] })
    else []
  else []

/-- ValidationError record (a diagnostic). -/
structure ValidationError where
  message : String
  line : Option Nat
  column : Option Nat
  severity : String
  path : Option String
deriving Repr, DecidableEq

/-- The missing-pipelines check of validateConfig: one error when the
service section has no truthy pipelines member. -/
def missingPipelinesErrors (service : JValue) (doc : YNode) : List ValidationError :=
  if !(jsGetSafe service "pipelines").truthy then
    [{ message := "Missing required \"service.pipelines\" section"
       line := getLineNumber doc ["service"], column := none
       severity := "error", path := none }]
  else []

/-- The per-pipeline loop body of validateConfig, in push order:
undefined receiver references, undefined processor references,
undefined exporter references, the no-receivers warning, the
no-exporters warning. -/
def pipelineRefErrors (receiverNames processorNames exporterNames : List String)
    (p : OTelPipeline) : List ValidationError :=
  ((p.receivers.filter (fun r => !receiverNames.contains r)).map (fun r =>
    { message := "Pipeline \"" ++ p.name ++ "\" references undefined receiver \"" ++ r ++ "\""
      line := p.lineNumber, column := none, severity := "error"
      path := some ("service.pipelines." ++ p.name ++ ".receivers") }))
  ++ ((p.processors.filter (fun r => !processorNames.contains r)).map (fun r =>
    { message := "Pipeline \"" ++ p.name ++ "\" references undefined processor \"" ++ r ++ "\""
      line := p.lineNumber, column := none, severity := "error"
      path := some ("service.pipelines." ++ p.name ++ ".processors") }))
  ++ ((p.exporters.filter (fun r => !exporterNames.contains r)).map (fun r =>
    { message := "Pipeline \"" ++ p.name ++ "\" references undefined exporter \"" ++ r ++ "\""
      line := p.lineNumber, column := none, severity := "error"
      path := some ("service.pipelines." ++ p.name ++ ".exporters") }))
  ++ (if p.receivers.length == 0 then
        [{ message := "Pipeline \"" ++ p.name ++ "\" has no receivers defined"
           line := p.lineNumber, column := none, severity := "warning", path := none }]
      else [])
  ++ (if p.exporters.length == 0 then
        [{ message := "Pipeline \"" ++ p.name ++ "\" has no exporters defined"
           line := p.lineNumber, column := none, severity := "warning", path := none }]
      else [])

/-- The enabled-extensions loop of validateConfig: one error per enabled
extension identifier absent from the extension catalog. -/
def undefinedExtensionErrors (extensionNames enabledExtensions : List String)
    (doc : YNode) : List ValidationError :=
  (enabledExtensions.filter (fun x => !extensionNames.contains x)).map (fun x =>
    { message := "Service references undefined extension \"" ++ x ++ "\""
      line := getLineNumber doc ["service", "extensions"], column := none
      severity := "error", path := some "service.extensions" })

/-- One unused-component loop of validateConfig: the three receiver /
processor / exporter loops differ only in the kind word of the message
and the path prefix, so they share this definition. -/
def unusedComponentWarnings (kindWord pathPrefix : String)
    (comps : List OTelComponent) (used : List String) : List ValidationError :=
  (comps.filter (fun r => !used.contains r.fullName)).map (fun r =>
    { message := kindWord ++ " \"" ++ r.fullName ++ "\" is defined but not used in any pipeline"
      line := r.lineNumber, column := none, severity := "warning"
      path := some (pathPrefix ++ r.fullName) })

/-- The not-enabled-extensions loop of validateConfig. -/
def unusedExtensionWarnings (extensions : List OTelComponent)
    (enabledExtensions : List String) : List ValidationError :=
  (extensions.filter (fun x => !enabledExtensions.contains x.fullName)).map (fun x =>
    { message := "Extension \"" ++ x.fullName ++ "\" is defined but not enabled in service.extensions"
      line := x.lineNumber, column := none, severity := "warning"
      path := some ("extensions." ++ x.fullName) })

/-- validateConfig, translated push for push: the source accumulates
into a mutable array in exactly the order of these list pieces (each
named definition above is one loop of the source).  JS Set construction
and `.has` are modelled by list membership on the same element lists.
Inside this function `config` is non-nullish (the caller has already
performed throwing member accesses on it), so its member accesses are
modelled with the non-throwing `jsGetSafe`. -/
def validateConfig (config : JValue)
    (receivers processors exporters connectors extensions : List OTelComponent)
    (pipelines : List OTelPipeline) (enabledExtensions : List String)
    (doc : YNode) : List ValidationError :=
  if !(jsGetSafe config "service").truthy then
    [{ message := "Missing required \"service\" section"
       line := none, column := none, severity := "error", path := none }]
  else
    missingPipelinesErrors (jsGetSafe config "service") doc
    ++ pipelines.flatMap (pipelineRefErrors
        (receivers.map (fun r => r.fullName) ++ connectors.map (fun c => c.fullName))
        (processors.map (fun p => p.fullName))
        (exporters.map (fun e => e.fullName) ++ connectors.map (fun c => c.fullName)))
    ++ undefinedExtensionErrors (extensions.map (fun e => e.fullName)) enabledExtensions doc
    ++ unusedComponentWarnings "Receiver" "receivers." receivers
        (pipelines.flatMap (fun p => p.receivers))
    ++ unusedComponentWarnings "Processor" "processors." processors
        (pipelines.flatMap (fun p => p.processors))
    ++ unusedComponentWarnings "Exporter" "exporters." exporters
        (pipelines.flatMap (fun p => p.exporters))
    ++ unusedExtensionWarnings extensions enabledExtensions

/-- One syntax error reported by the external YAML library. -/
structure YamlError where
  message : String
  line : Option Nat
  column : Option Nat
deriving Repr, DecidableEq

/-- The external YAML library's output for a document text: reported
syntax errors plus the concrete syntax tree.  `parseDocument` does not
throw for string input. -/
structure YamlDoc where
  errors : List YamlError
  contents : YNode
deriving Repr

/-- ParseResult record.  `rawConfig` is JS null until the document has
been decoded. -/
structure ParseResult where
  receivers : List OTelComponent
  processors : List OTelComponent
  exporters : List OTelComponent
  connectors : List OTelComponent
  extensions : List OTelComponent
  pipelines : List OTelPipeline
  enabledExtensions : List String
  errors : List ValidationError
  isValid : Bool
  rawConfig : JValue
deriving Repr

/-- The initial ParseResult the source builds before filling it in. -/
def emptyParseResult : ParseResult :=
  { receivers := [], processors := [], exporters := [], connectors := [], extensions := []
    pipelines := [], enabledExtensions := [], errors := [], isValid := false
    rawConfig := .null }

/-- parseOTelConfig: the public validate entry point.  The Except layer
records the untranslated JS exception behaviour: after the try block
ends, member accesses on the decoded value (starting with
`config.receivers`) are performed unprotected, so a document decoding to
null/undefined makes the function throw. -/
def parseOTelConfig (yamlContent : String) (doc : YamlDoc) : Except String ParseResult :=
  if isBlankText yamlContent then
    .ok { emptyParseResult with errors :=
      [{ message := "Configuration is empty"
         line := none, column := none, severity := "error", path := none }] }
  else if doc.errors.length > 0 then
    .ok { emptyParseResult with errors := doc.errors.map (fun e =>
      { message := e.message, line := e.line, column := e.column
        severity := "error", path := none }) }
  else
    let config := doc.contents.toJS
    do
      let receiversSection ← jsGet config "receivers"
      let processorsSection ← jsGet config "processors"
      let exportersSection ← jsGet config "exporters"
      let connectorsSection ← jsGet config "connectors"
      let extensionsSection ← jsGet config "extensions"
      let serviceValue ← jsGet config "service"
      let receivers := extractComponents receiversSection "receiver" doc.contents "receivers"
      let processors := extractComponents processorsSection "processor" doc.contents "processors"
      let exporters := extractComponents exportersSection "exporter" doc.contents "exporters"
      let connectors := extractComponents connectorsSection "connector" doc.contents "connectors"
      let extensions := extractComponents extensionsSection "extension" doc.contents "extensions"
      let pipelines := extractPipelines serviceValue doc.contents
      let enabledExtensions := asStringList (jsGetSafe serviceValue "extensions")
      let errors := validateConfig config receivers processors exporters connectors
        extensions pipelines enabledExtensions doc.contents
      let isValid := (errors.filter (fun e => e.severity == "error")).length == 0
      pure { receivers := receivers, processors := processors, exporters := exporters
             connectors := connectors, extensions := extensions, pipelines := pipelines
             enabledExtensions := enabledExtensions, errors := errors
             isValid := isValid, rawConfig := config }

/-- Occurrence of a pattern inside a character list: some suffix starts
with the pattern. -/
def occursIn (pat : List Char) : List Char → Bool
  | [] => pat.isEmpty
  | c :: rest => pat.isPrefixOf (c :: rest) || occursIn pat rest

/-- JS substring test `s.includes(pat)`. -/
def strIncludes (s pat : String) : Bool :=
  occursIn pat.data s.data

/-- Flow-graph node.  Fields absent from a node's `data` object in the
source are `none` here (label nodes have no component fields, processor
nodes carry no `isConnector`, only extension nodes carry `isActive`); a
`config` key that is present but holds JS undefined is
`some JValue.undef`. -/
structure FlowNode where
  id : String
  ntype : String
  posX : Int
  posY : Int
  label : String
  pipelineType : Option String
  fullName : Option String
  componentType : Option String
  hasError : Option Bool
  config : Option JValue
  isConnector : Option Bool
  isActive : Option Bool
  draggable : Option Bool
  selectable : Option Bool
deriving Repr

/-- An edge before its id is assigned.  In the source every `edges.push`
uses the id `edge-${edgeCounter++}-<suffix>` and nothing else reads the
counter, so the counter value of an edge equals its index in the final
edge list; `idSuffix` is the `<suffix>` part. -/
structure ProtoEdge where
  idSuffix : String
  source : String
  target : String
  stroke : String
  dashed : Bool
  label : Option String
deriving Repr, DecidableEq

/-- Flow-graph edge.  `dashed` records the `strokeDasharray` style hint
that distinguishes cross-pipeline connector edges. -/
structure FlowEdge where
  id : String
  source : String
  target : String
  stroke : String
  dashed : Bool
  label : Option String
deriving Repr, DecidableEq

/-- isConnector from the source: membership of a name in the connector
catalog. -/
def isConnectorName (name : String) (connectors : List OTelComponent) : Bool :=
  connectors.any (fun c => c.fullName == name)

/-- The `errorPaths` set: the defined, truthy (nonempty) paths of the
diagnostics. -/
def errorPaths (errors : List ValidationError) : List String :=
  (errors.filterMap (fun e => e.path)).filter (fun s => s != "")

/-- The `errors.some(e => e.message.includes(`"<name>"`))` fallback. -/
def messageMentions (errors : List ValidationError) (name : String) : Bool :=
  errors.any (fun e => strIncludes e.message ("\"" ++ name ++ "\""))

/-- Node id of a receiver slot of a pipeline. -/
def receiverNodeId (p : OTelPipeline) (name : String) : String :=
  p.id ++ "-receiver-" ++ name

/-- Node id of a processor slot of a pipeline. -/
def processorNodeId (p : OTelPipeline) (name : String) : String :=
  p.id ++ "-processor-" ++ name

/-- Node id of an exporter slot of a pipeline. -/
def exporterNodeId (p : OTelPipeline) (name : String) : String :=
  p.id ++ "-exporter-" ++ name

/-- hasError of a receiver-slot node. -/
def receiverHasError (errors : List ValidationError) (name : String) : Bool :=
  (errorPaths errors).contains ("receivers." ++ name)
    || (errorPaths errors).contains ("connectors." ++ name)
    || messageMentions errors name

/-- hasError of a processor-slot node. -/
def processorHasError (errors : List ValidationError) (name : String) : Bool :=
  (errorPaths errors).contains ("processors." ++ name)
    || messageMentions errors name

/-- hasError of an exporter-slot node. -/
def exporterHasError (errors : List ValidationError) (name : String) : Bool :=
  (errorPaths errors).contains ("exporters." ++ name)
    || (errorPaths errors).contains ("connectors." ++ name)
    || messageMentions errors name

/-- hasError of a standalone connector node. -/
def connectorHasError (errors : List ValidationError) (name : String) : Bool :=
  (errorPaths errors).contains ("connectors." ++ name)
    || messageMentions errors name

/-- The path-or-mention part of an extension node's hasError (before the
`|| !isEnabled` disjunct). -/
def extensionHasError (errors : List ValidationError) (name : String) : Bool :=
  (errorPaths errors).contains ("extensions." ++ name)
    || messageMentions errors name

/-- A pipeline-label node (`type: 'pipelineLabel'`, not draggable or
selectable). -/
def mkLabelNode (id : String) (x y : Int) (label ptype : String) : FlowNode :=
  { id := id, ntype := "pipelineLabel", posX := x, posY := y, label := label
    pipelineType := some ptype, fullName := none, componentType := none
    hasError := none, config := none, isConnector := none, isActive := none
    draggable := some false, selectable := some false }

/-- A component node (`type: 'pipeline'`). -/
def mkComponentNode (id : String) (x y : Int) (name ctype : String)
    (hasErrorFlag : Bool) (config : JValue) (isConn isActive : Option Bool) : FlowNode :=
  { id := id, ntype := "pipeline", posX := x, posY := y, label := name
    pipelineType := none, fullName := some name, componentType := some ctype
    hasError := some hasErrorFlag, config := some config, isConnector := isConn
    isActive := isActive, draggable := none, selectable := none }

/-- The JS `a || b` fallback on optional component configs. -/
def jsOr (a b : JValue) : JValue :=
  if a.truthy then a else b

/-- The config of an optionally-found component (`c?.config`). -/
def optConfig (c : Option OTelComponent) : JValue :=
  match c with
  | some comp => comp.config
  | none => (.undef)

/-- Nodes pushed while processing one pipeline, in push order: the label
node, then receiver, processor and exporter slot nodes left to right
(`currentX` starts at 50 and advances 200 per component node, so the
j-th component node of the row sits at x = 50 + 200*j). -/
def pipelineNodes (pr : ParseResult) (errors : List ValidationError)
    (pipelineIndex : Nat) (p : OTelPipeline) : List FlowNode :=
  let baseY : Int := 100 + 180 * (pipelineIndex : Int)
  mkLabelNode ("label-" ++ p.id) 20 (baseY - 40) p.name p.type ::
  (p.receivers.enum.map (fun e =>
    let isConn := isConnectorName e.2 pr.connectors
    mkComponentNode (receiverNodeId p e.2) (50 + 200 * (e.1 : Int)) baseY e.2
      (if isConn then "connector" else "receiver")
      (receiverHasError errors e.2)
      (jsOr (optConfig (pr.connectors.find? (fun c => c.fullName == e.2)))
            (optConfig (pr.receivers.find? (fun r => r.fullName == e.2))))
      (some isConn) none)
  ++ p.processors.enum.map (fun e =>
    mkComponentNode (processorNodeId p e.2)
      (50 + 200 * ((p.receivers.length : Int) + (e.1 : Int))) baseY e.2
      "processor" (processorHasError errors e.2)
      (optConfig (pr.processors.find? (fun c => c.fullName == e.2)))
      none none)
  ++ p.exporters.enum.map (fun e =>
    let isConn := isConnectorName e.2 pr.connectors
    mkComponentNode (exporterNodeId p e.2)
      (50 + 200 * ((p.receivers.length : Int) + (p.processors.length : Int) + (e.1 : Int)))
      baseY e.2
      (if isConn then "connector" else "exporter")
      (exporterHasError errors e.2)
      (jsOr (optConfig (pr.connectors.find? (fun c => c.fullName == e.2)))
            (optConfig (pr.exporters.find? (fun c => c.fullName == e.2))))
      (some isConn) none))

/-- The `if (prevNodeId) { edges.push(...) } prevNodeId = nodeId` loop:
an edge from the running previous node into each visited node. -/
def chainEdges (stroke : String → String) (nodeIdOf : String → String) :
    Option String → List String → List ProtoEdge
  | _, [] => []
  | prev, name :: rest =>
    let nodeId := nodeIdOf name
    (match prev with
     | some src =>
       [{ idSuffix := src ++ "-" ++ nodeId, source := src, target := nodeId
          stroke := stroke name, dashed := false, label := none }]
     | none => []) ++ chainEdges stroke nodeIdOf (some nodeId) rest

/-- Value of `prevNodeId` after the receiver loop: the last receiver's
node id, if any. -/
def prevAfterReceivers (p : OTelPipeline) : Option String :=
  (p.receivers.getLast?).map (fun n => receiverNodeId p n)

/-- Value of `prevNodeId` after the processor loop. -/
def prevAfterProcessors (p : OTelPipeline) : Option String :=
  match p.processors.getLast? with
  | some n => some (processorNodeId p n)
  | none => prevAfterReceivers p

/-- The first downstream stage a pipeline's receivers feed into: the
first processor, else the first exporter, else none. -/
def firstDownstreamId (p : OTelPipeline) : Option String :=
  if p.processors.length > 0 then some (processorNodeId p (p.processors.headD ""))
  else if p.exporters.length > 0 then some (exporterNodeId p (p.exporters.headD ""))
  else none

/-- The fan-in block: when the pipeline has receivers and a first
downstream target exists, iterate the receivers and push one edge only
at the last index. -/
def fanInEdges (pr : ParseResult) (p : OTelPipeline) : List ProtoEdge :=
  if p.receivers.length > 0 then
    match firstDownstreamId p with
    | some firstTargetId =>
      p.receivers.enum.filterMap (fun e =>
        if e.1 == p.receivers.length - 1 then
          let sourceId := receiverNodeId p e.2
          let isConn := isConnectorName e.2 pr.connectors
          some { idSuffix := sourceId ++ "-" ++ firstTargetId
                 source := sourceId, target := firstTargetId
                 stroke := if isConn then "#f59e0b" else "#22d3ee"
                 dashed := false, label := none }
        else none)
    | none => []
  else []

/-- Edges pushed while processing one pipeline, in push order: the
processor-loop edges, the exporter-loop edges (amber stroke when the
target is a connector), then the fan-in edge. -/
def pipelineProtoEdges (pr : ParseResult) (p : OTelPipeline) : List ProtoEdge :=
  chainEdges (fun _ => "#a855f7") (fun n => processorNodeId p n)
    (prevAfterReceivers p) p.processors
  ++ chainEdges (fun n => if isConnectorName n pr.connectors then "#f59e0b" else "#10b981")
    (fun n => exporterNodeId p n) (prevAfterProcessors p) p.exporters
  ++ fanInEdges pr p

/-- One tracked occurrence of a connector inside a pipeline slot. -/
structure ConnEntry where
  nodeId : String
  pipelineId : String
  role : String
deriving Repr, DecidableEq

/-- The stream of connectorNodes insertions, in program order: for each
pipeline, its connector-valued receiver slots (pushed during the
receiver loop), then its connector-valued exporter slots. -/
def connectorEntries (pr : ParseResult) : List (String × ConnEntry) :=
  pr.pipelines.flatMap (fun p =>
    (p.receivers.filter (fun r => isConnectorName r pr.connectors)).map (fun r =>
      (r, { nodeId := receiverNodeId p r, pipelineId := p.id, role := "receiver" }))
    ++ (p.exporters.filter (fun x => isConnectorName x pr.connectors)).map (fun x =>
      (x, { nodeId := exporterNodeId p x, pipelineId := p.id, role := "exporter" })))

/-- One insertion into the connectorNodes Map: append to an existing
key's list, else append a new key (JS Map preserves first-insertion key
order). -/
def pushConn (m : List (String × List ConnEntry)) (k : String) (e : ConnEntry) :
    List (String × List ConnEntry) :=
  if m.any (fun kv => kv.1 == k) then
    m.map (fun kv => if kv.1 == k then (kv.1, kv.2 ++ [e]) else kv)
  else m ++ [(k, [e])]

/-- The connectorNodes Map after all pipelines are processed. -/
def connectorMap (pr : ParseResult) : List (String × List ConnEntry) :=
  (connectorEntries pr).foldl (fun m kv => pushConn m kv.1 kv.2) []

/-- Cross-pipeline connector edges: for each tracked connector name, one
dashed labelled edge from every exporter-role occurrence to every
receiver-role occurrence in a different pipeline. -/
def crossProtoEdges (pr : ParseResult) : List ProtoEdge :=
  (connectorMap pr).flatMap (fun kv =>
    let exps := kv.2.filter (fun n => n.role == "exporter")
    let recs := kv.2.filter (fun n => n.role == "receiver")
    exps.flatMap (fun x =>
      recs.filterMap (fun y =>
        if x.pipelineId != y.pipelineId then
          some { idSuffix := "connector-" ++ kv.1 ++ "-" ++ x.pipelineId ++ "-" ++ y.pipelineId
                 source := x.nodeId, target := y.nodeId, stroke := "#f59e0b"
                 dashed := true, label := some kv.1 }
        else none)))

/-- Connector names referenced by some pipeline slot (the
`usedConnectors` set). -/
def usedConnectorNames (pr : ParseResult) : List String :=
  pr.pipelines.flatMap (fun p =>
    p.receivers.filter (fun r => isConnectorName r pr.connectors)
    ++ p.exporters.filter (fun x => isConnectorName x pr.connectors))

/-- Connectors defined but not referenced by any pipeline slot. -/
def unusedConnectorsOf (pr : ParseResult) : List OTelComponent :=
  pr.connectors.filter (fun c => !(usedConnectorNames pr).contains c.fullName)

/-- The standalone-connectors row (label node plus one node per unused
connector), present only when some connector is unused. -/
def connectorSectionNodes (pr : ParseResult) (errors : List ValidationError) :
    List FlowNode :=
  let uc := unusedConnectorsOf pr
  if uc.length > 0 then
    let connectorY : Int := 100 + 180 * (pr.pipelines.length : Int) + 30
    mkLabelNode "label-connectors" 20 (connectorY - 40) "Connectors" "traces" ::
    uc.enum.map (fun e =>
      mkComponentNode ("connector-" ++ e.2.fullName) (50 + 200 * (e.1 : Int)) connectorY
        e.2.fullName "connector" (connectorHasError errors e.2.fullName)
        e.2.config (some true) none)
  else []

/-- One extension node: `hasError` is the diagnostic correlation OR-ed
with not-enabled, `isActive` is membership in the enabled-extensions
list. -/
def mkExtensionNode (pr : ParseResult) (errors : List ValidationError)
    (extensionY : Int) (i : Nat) (x : OTelComponent) : FlowNode :=
  let isEnabled := pr.enabledExtensions.contains x.fullName
  mkComponentNode ("extension-" ++ x.fullName) (50 + 200 * (i : Int)) extensionY
    x.fullName "extension"
    (extensionHasError errors x.fullName || !isEnabled)
    x.config none (some isEnabled)

/-- The extensions row (label node plus one node per extension), present
only when extensions exist; it sits one row lower when the
standalone-connectors row is present. -/
def extensionSectionNodes (pr : ParseResult) (errors : List ValidationError) :
    List FlowNode :=
  if pr.extensions.length > 0 then
    let extensionY : Int := 100 + 180 * (pr.pipelines.length : Int)
      + (if (unusedConnectorsOf pr).length > 0 then 180 else 0) + 30
    mkLabelNode "label-extensions" 20 (extensionY - 40) "Extensions" "logs" ::
    pr.extensions.enum.map (fun e => mkExtensionNode pr errors extensionY e.1 e.2)
  else []

/-- The derived graph. -/
structure FlowGraph where
  nodes : List FlowNode
  edges : List FlowEdge
deriving Repr

/-- Assign the final id to the proto edge at a given position: the
global push counter equals the edge's index in the edge list. -/
def assignEdgeId (ie : Nat × ProtoEdge) : FlowEdge :=
  { id := "edge-" ++ toString ie.1 ++ "-" ++ ie.2.idSuffix
    source := ie.2.source, target := ie.2.target, stroke := ie.2.stroke
    dashed := ie.2.dashed, label := ie.2.label }

/-- generateFlowElements: nodes in push order (per-pipeline rows, the
standalone-connectors row, the extensions row) and edges in push order
(per-pipeline edges, then cross-pipeline connector edges), ids assigned
from the running counter. -/
def generateFlowElements (pr : ParseResult) (errors : List ValidationError) :
    FlowGraph :=
  { nodes := pr.pipelines.enum.flatMap (fun e => pipelineNodes pr errors e.1 e.2)
      ++ connectorSectionNodes pr errors
      ++ extensionSectionNodes pr errors
    edges := ((pr.pipelines.flatMap (fun p => pipelineProtoEdges pr p)
      ++ crossProtoEdges pr).enum.map assignEdgeId) }

/-- buildGraph: how every caller invokes the builder, passing the parse
result and its own diagnostics. -/
def buildGraph (pr : ParseResult) : FlowGraph :=
  generateFlowElements pr pr.errors

/-- Cleanliness of a pipeline record for node-id reasoning: its id has
the shape the extractor produces and its name is dash-free, which makes
the slot node ids `pipeline-<name>-<kind>-<ref>` unambiguous. -/
def cleanPipeline (p : OTelPipeline) : Prop :=
  p.id = "pipeline-" ++ p.name ∧ ('-' ∈ p.name.data → False)

instance (p : OTelPipeline) : Decidable (cleanPipeline p) := by
  unfold cleanPipeline
  infer_instance

/-- A pipeline with two receivers used in the C7 witness. -/
def pFan : OTelPipeline :=
  { id := "pipeline-traces", name := "traces", type := "traces"
    receivers := ["a", "b"], processors := ["c1", "c2"], exporters := ["d1", "d2"]
    lineNumber := none }

/-- A ParseResult holding only the two-receiver pipeline. -/
def prFanSample : ParseResult :=
  { emptyParseResult with pipelines := [pFan] }

/-- The entries a connectorNodes map associates with a key (the
concatenation over its groups with that key; with unique keys this is
the single group's list). -/
def entriesFor (m : List (String × List ConnEntry)) (k : String) : List ConnEntry :=
  (m.filter (fun kv => kv.1 == k)).flatMap (fun kv => kv.2)

/-- The ParseResult of the success path of parseOTelConfig (nonblank
text, no syntax errors, non-nullish decoded value), written with the
safe accessor; `parseOTelConfig_eq_ok` proves the entry point returns
exactly this record on that path. -/
def parsedResult (doc : YamlDoc) : ParseResult :=
  let config := doc.contents.toJS
  let receivers := extractComponents (jsGetSafe config "receivers") "receiver" doc.contents "receivers"
  let processors := extractComponents (jsGetSafe config "processors") "processor" doc.contents "processors"
  let exporters := extractComponents (jsGetSafe config "exporters") "exporter" doc.contents "exporters"
  let connectors := extractComponents (jsGetSafe config "connectors") "connector" doc.contents "connectors"
  let extensions := extractComponents (jsGetSafe config "extensions") "extension" doc.contents "extensions"
  let pipelines := extractPipelines (jsGetSafe config "service") doc.contents
  let enabledExtensions := asStringList (jsGetSafe (jsGetSafe config "service") "extensions")
  let errors := validateConfig config receivers processors exporters connectors
    extensions pipelines enabledExtensions doc.contents
  { receivers := receivers, processors := processors, exporters := exporters
    connectors := connectors, extensions := extensions, pipelines := pipelines
    enabledExtensions := enabledExtensions, errors := errors
    isValid := (errors.filter (fun e => e.severity == "error")).length == 0
    rawConfig := config }

/-- The configuration text of the basic concrete scenario (one traces
pipeline wiring otlp through batch into debug). -/
def textBasic : String :=
  "receivers:\n  otlp: {}\nprocessors:\n  batch: {}\nexporters:\n  debug: {}\nservice:\n  pipelines:\n    traces:\n      receivers: [otlp]\n      processors: [batch]\n      exporters: [debug]\n"

/-- The YAML library's output for `textBasic`: no syntax errors, and the
tree with each key's 1-based line. -/
def docBasic : YamlDoc :=
  { errors := []
    contents := .map [
      ("receivers", some 1, .map [("otlp", some 2, .map [])]),
      ("processors", some 3, .map [("batch", some 4, .map [])]),
      ("exporters", some 5, .map [("debug", some 6, .map [])]),
      ("service", some 7, .map [
        ("pipelines", some 8, .map [
          ("traces", some 9, .map [
            ("receivers", some 10, .seq [.scalar (.str "otlp")]),
            ("processors", some 11, .seq [.scalar (.str "batch")]),
            ("exporters", some 12, .seq [.scalar (.str "debug")])])])])] }

/-- The parse result of the basic scenario. -/
def basicRes : ParseResult :=
  ((parseOTelConfig textBasic docBasic).toOption).getD emptyParseResult

/-- A document whose whole body is the scalar `null`: the YAML library
reports no syntax error and `Document.toJS` yields JS null. -/
def docNull : YamlDoc :=
  { errors := [], contents := .scalar .null }

/-- A document consisting only of a comment line: textually nonblank,
decodes with no syntax error to JS null. -/
def docCommentOnly : YamlDoc :=
  { errors := [], contents := .scalar .null }

/-- The configuration text used for the C6 counterexample: a spanmetrics
connector referenced twice as a traces exporter and once as a metrics
receiver, plus an unused processor that shares the connector's name. -/
def docConn : YamlDoc :=
  { errors := []
    contents := .map [
      ("receivers", some 1, .map [("otlp", some 2, .map [])]),
      ("processors", some 3, .map [("spanmetrics", some 4, .map [])]),
      ("exporters", some 5, .map [("debug", some 6, .map [])]),
      ("connectors", some 7, .map [("spanmetrics", some 8, .map [])]),
      ("service", some 9, .map [
        ("pipelines", some 10, .map [
          ("traces", some 11, .map [
            ("receivers", some 12, .seq [.scalar (.str "otlp")]),
            ("exporters", some 13, .seq [.scalar (.str "spanmetrics"), .scalar (.str "spanmetrics")])]),
          ("metrics", some 14, .map [
            ("receivers", some 15, .seq [.scalar (.str "spanmetrics")]),
            ("exporters", some 16, .seq [.scalar (.str "debug")])])])])] }

/-- The configuration text matching `docConn`. -/
def textConn : String :=
  "receivers:\n  otlp: {}\nprocessors:\n  spanmetrics: {}\nexporters:\n  debug: {}\nconnectors:\n  spanmetrics: {}\nservice:\n  pipelines:\n    traces:\n      receivers: [otlp]\n      exporters: [spanmetrics, spanmetrics]\n    metrics:\n      receivers: [spanmetrics]\n      exporters: [debug]\n"

/-- The parse result of the connector counterexample scenario. -/
def connRes : ParseResult :=
  ((parseOTelConfig textConn docConn).toOption).getD emptyParseResult

/-- The parse result of the empty document. -/
def emptyDocRes : ParseResult :=
  { emptyParseResult with errors :=
      [{ message := "Configuration is empty"
         line := none, column := none, severity := "error", path := none }] }


/-- The health_check extension component used in the C10 witness. -/
def extHealth : OTelComponent :=
  { id := "extension-health_check", type := "extension", name := "health_check"
    fullName := "health_check", config := JValue.obj [], lineNumber := some 2 }

/-- A ParseResult holding a single extension that is not enabled. -/
def prExtSample : ParseResult :=
  { emptyParseResult with extensions := [extHealth] }


/-- A traces pipeline exporting once into the spanmetrics connector,
used in the C6 witness. -/
def pC6A : OTelPipeline :=
  { id := "pipeline-traces", name := "traces", type := "traces"
    receivers := ["otlp"], processors := [], exporters := ["spanmetrics"]
    lineNumber := none }

/-- A metrics pipeline receiving once from the spanmetrics connector,
used in the C6 witness. -/
def pC6B : OTelPipeline :=
  { id := "pipeline-metrics", name := "metrics", type := "metrics"
    receivers := ["spanmetrics"], processors := [], exporters := ["debug"]
    lineNumber := none }

/-- The spanmetrics connector component of the C6 witness. -/
def connC6 : OTelComponent :=
  { id := "connector-spanmetrics", type := "spanmetrics", name := "spanmetrics"
    fullName := "spanmetrics", config := JValue.obj [], lineNumber := some 8 }

/-- A ParseResult with one connector bridging two pipelines, each
referencing it exactly once. -/
def prC6 : ParseResult :=
  { emptyParseResult with connectors := [connC6], pipelines := [pC6A, pC6B] }

/-- Member access never throws on a value that is neither null nor
undefined, and agrees with the safe accessor there. -/
theorem jsGet_ok_of_not_nullish (v : JValue) (k : String)
    (h1 : v ≠ JValue.null) (h2 : v ≠ JValue.undef) :
    jsGet v k = Except.ok (jsGetSafe v k) := by
  cases v with
  | undef => exact absurd rfl h2
  | null => exact absurd rfl h1
  | bool b => rfl
  | num n => rfl
  | str s => rfl
  | arr xs => rfl
  | obj kvs => rfl

/-- On the success path the entry point returns the `parsedResult`
record. -/
theorem parseOTelConfig_eq_ok (yamlContent : String) (doc : YamlDoc)
    (htext : isBlankText yamlContent = false) (herr : doc.errors = [])
    (h1 : doc.contents.toJS ≠ JValue.null) (h2 : doc.contents.toJS ≠ JValue.undef) :
    parseOTelConfig yamlContent doc = Except.ok (parsedResult doc) := by
  simp only [parseOTelConfig, htext, Bool.false_eq_true, if_false, herr,
    List.length_nil, gt_iff_lt, lt_irrefl,
    jsGet_ok_of_not_nullish _ _ h1 h2]
  rfl

/-- Appending cannot make two strings equal when they already disagree
on a common prefix of their character data. -/
theorem string_append_ne (p q x y : String) (k : Nat)
    (hk1 : k ≤ p.data.length) (hk2 : k ≤ q.data.length)
    (hne : p.data.take k ≠ q.data.take k) : p ++ x ≠ q ++ y := by
  intro h
  apply hne
  have hd : (p ++ x).data = (q ++ y).data := by rw [h]
  rw [String.data_append, String.data_append] at hd
  have ht := congrArg (List.take k) hd
  rwa [List.take_append_of_le_length hk1, List.take_append_of_le_length hk2] at ht

/-- Left cancellation for string append. -/
theorem string_append_left_cancel {p x y : String} (h : p ++ x = p ++ y) : x = y := by
  have hd : (p ++ x).data = (p ++ y).data := by rw [h]
  rw [String.data_append, String.data_append] at hd
  exact String.ext (List.append_cancel_left hd)

/-- Cancellation of a common prefix and a common suffix. -/
theorem string_sandwich_cancel {p s a b : String}
    (h : p ++ a ++ s = p ++ b ++ s) : a = b := by
  have hd : (p ++ a ++ s).data = (p ++ b ++ s).data := by rw [h]
  simp only [String.data_append] at hd
  have h1 := List.append_cancel_right hd
  exact String.ext (List.append_cancel_left h1)

/-- A string literal never equals a prefixed string when the prefixes
disagree within a common length. -/
theorem string_ne_append (lit q y : String) (k : Nat)
    (hk2 : k ≤ q.data.length)
    (hne : lit.data.take k ≠ q.data.take k) : lit ≠ q ++ y := by
  intro h
  apply hne
  have hd := congrArg String.data h
  rw [String.data_append] at hd
  have ht := congrArg (List.take k) hd
  rwa [List.take_append_of_le_length hk2] at ht

/-- Disagreeing literal heads keep three-piece prefixed strings apart
from two-piece ones. -/
theorem string_append3_ne (a nm suf q y : String) (k : Nat)
    (hk1 : k ≤ a.data.length) (hk2 : k ≤ q.data.length)
    (hne : a.data.take k ≠ q.data.take k) : a ++ nm ++ suf ≠ q ++ y := by
  rw [String.append_assoc]
  exact string_append_ne a q (nm ++ suf) y k hk1 hk2 hne

/-- No diagnostic of the missing-pipelines check carries a structural
path. -/
theorem countP_missingPipelines_pathEq (service : JValue) (doc : YNode) (t : String) :
    (missingPipelinesErrors service doc).countP (fun d => d.path == some t) = 0 := by
  unfold missingPipelinesErrors
  split
  · rfl
  · rfl

/-- Pipeline reference errors carry service-section paths and emptiness
warnings carry none, so a foreign path never counts among them. -/
theorem countP_pipelineRefErrors_pathEq (rN pN eN : List String) (p : OTelPipeline)
    (t : String) (h : ∀ nm suf, "service.pipelines." ++ nm ++ suf ≠ t) :
    (pipelineRefErrors rN pN eN p).countP (fun d => d.path == some t) = 0 := by
  rw [List.countP_eq_zero]
  intro d hd
  simp only [pipelineRefErrors, List.mem_append] at hd
  rcases hd with ((((hd | hd) | hd) | hd) | hd)
  · rcases List.mem_map.mp hd with ⟨r, _, rfl⟩
    simp only [beq_iff_eq, Option.some.injEq]
    exact h p.name ".receivers"
  · rcases List.mem_map.mp hd with ⟨r, _, rfl⟩
    simp only [beq_iff_eq, Option.some.injEq]
    exact h p.name ".processors"
  · rcases List.mem_map.mp hd with ⟨r, _, rfl⟩
    simp only [beq_iff_eq, Option.some.injEq]
    exact h p.name ".exporters"
  · revert hd
    split <;> intro hd <;> simp at hd
    rw [hd]
    exact fun hh => Bool.noConfusion hh
  · revert hd
    split <;> intro hd <;> simp at hd
    rw [hd]
    exact fun hh => Bool.noConfusion hh

/-- Undefined-extension errors all carry the service.extensions path. -/
theorem countP_undefExt_pathEq (exN en : List String) (doc : YNode) (t : String)
    (h : "service.extensions" ≠ t) :
    (undefinedExtensionErrors exN en doc).countP (fun d => d.path == some t) = 0 := by
  rw [List.countP_eq_zero]
  intro d hd
  rcases List.mem_map.mp hd with ⟨x, _, rfl⟩
  simp only [beq_iff_eq, Option.some.injEq]
  exact h

/-- Unused-component warnings carry their own section prefix, so a
foreign path never counts among them. -/
theorem countP_unusedComponent_pathEq_zero (kw pre : String)
    (comps : List OTelComponent) (used : List String) (t : String)
    (h : ∀ fn, pre ++ fn ≠ t) :
    (unusedComponentWarnings kw pre comps used).countP (fun d => d.path == some t) = 0 := by
  rw [List.countP_eq_zero]
  intro d hd
  rcases List.mem_map.mp hd with ⟨x, _, rfl⟩
  simp only [beq_iff_eq, Option.some.injEq]
  exact h x.fullName

/-- Not-enabled-extension warnings carry the extensions prefix. -/
theorem countP_unusedExtension_pathEq_zero (exts : List OTelComponent)
    (en : List String) (t : String) (h : ∀ fn, "extensions." ++ fn ≠ t) :
    (unusedExtensionWarnings exts en).countP (fun d => d.path == some t) = 0 := by
  rw [List.countP_eq_zero]
  intro d hd
  rcases List.mem_map.mp hd with ⟨x, _, rfl⟩
  simp only [beq_iff_eq, Option.some.injEq]
  exact h x.fullName

/-- A flat-mapped list has count zero when every block does. -/
theorem countP_flatMap_eq_zero {α : Type} (l : List α)
    (f : α → List ValidationError) (pred : ValidationError → Bool)
    (h : ∀ a ∈ l, (f a).countP pred = 0) : (l.flatMap f).countP pred = 0 := by
  rw [List.countP_eq_zero]
  intro d hd
  rcases List.mem_flatMap.mp hd with ⟨a, ha, hda⟩
  exact (List.countP_eq_zero.mp (h a ha)) d hda

/-- A catalog member with a fullName unique in the catalog and absent
from the used list yields exactly one warning counted by its path. -/
theorem countP_unusedComponent_pathEq_one (kw pre : String)
    (comps : List OTelComponent) (used : List String) (rc : OTelComponent)
    (hmem : rc ∈ comps) (hnodup : (comps.map (fun c => c.fullName)).Nodup)
    (hunused : used.contains rc.fullName = false) :
    (unusedComponentWarnings kw pre comps used).countP
      (fun d => d.path == some (pre ++ rc.fullName)) = 1 := by
  unfold unusedComponentWarnings
  rw [List.countP_map]
  rw [List.countP_congr (q := fun r => r.fullName == rc.fullName) ?_]
  · rw [List.countP_filter]
    rw [List.countP_congr (q := fun r => r.fullName == rc.fullName) ?_]
    · have hc : List.count rc.fullName (comps.map (fun c => c.fullName)) = 1 :=
        List.count_eq_one_of_mem hnodup (List.mem_map.mpr ⟨rc, hmem, rfl⟩)
      rw [List.count_eq_countP, List.countP_map] at hc
      simpa [Function.comp] using hc
    · intro r _
      constructor
      · intro hh
        exact (Bool.and_eq_true _ _).mp hh |>.1
      · intro hh
        refine (Bool.and_eq_true _ _).mpr ⟨hh, ?_⟩
        have : r.fullName = rc.fullName := by simpa [beq_iff_eq] using hh
        rw [this, hunused]
        rfl
  · intro r _
    simp only [Function.comp, beq_iff_eq, Option.some.injEq]
    constructor
    · intro hh
      exact string_append_left_cancel hh
    · intro hh
      rw [hh]

/-- The warning of an unused catalog member belongs to its loop's
output. -/
theorem mem_unusedComponentWarnings (kw pre : String)
    (comps : List OTelComponent) (used : List String) (rc : OTelComponent)
    (hmem : rc ∈ comps) (hunused : used.contains rc.fullName = false) :
    ({ message := kw ++ " \"" ++ rc.fullName ++ "\" is defined but not used in any pipeline"
       line := rc.lineNumber, column := none, severity := "warning"
       path := some (pre ++ rc.fullName) } : ValidationError)
      ∈ unusedComponentWarnings kw pre comps used :=
  List.mem_map.mpr ⟨rc, List.mem_filter.mpr ⟨hmem, by rw [hunused]; rfl⟩, rfl⟩

/-- C1: the public entry point throws an uncaught TypeError on a
document that decodes to null: the `config.receivers` access after the
try block dereferences null.  Evaluates the embedded code at the failing
input (document text `null`, which the YAML library decodes without
error to JS null). -/
theorem c1_validate_throws_on_null_document :
    parseOTelConfig "null" docNull = Except.error "TypeError" := by
  rfl

/-- C2 counterexample: on the basic scenario the claim's setup holds
(valid result, no diagnostics, one traces pipeline, 3 component nodes
and 1 label node) but the graph has 3 edges, not exactly 2: the
receiver-to-first-processor edge is emitted twice, once by the
sequential chain inside the processor loop and once by the fan-in
block. -/
theorem c2_counterexample_three_edges :
    parseOTelConfig textBasic docBasic = Except.ok basicRes ∧
    basicRes.isValid = true ∧
    basicRes.errors = [] ∧
    basicRes.pipelines.length = 1 ∧
    ((buildGraph basicRes).edges.length = 2 → False) := by
  refine ⟨rfl, rfl, rfl, rfl, ?_⟩
  decide

/-- C2 amended: on the basic scenario validate returns isValid = true,
zero diagnostics, one pipeline of signal kind traces, and buildGraph
returns 3 component nodes plus 1 label node and exactly 3 edges: otlp to
batch (sequential chain), batch to debug, and otlp to batch again (the
fan-in rule), so 2 distinct source-target pairs. -/
theorem c2_basic_scenario_graph :
    parseOTelConfig textBasic docBasic = Except.ok basicRes ∧
    basicRes.isValid = true ∧
    basicRes.errors = [] ∧
    basicRes.pipelines.map (fun p => p.type) = ["traces"] ∧
    (buildGraph basicRes).nodes.length = 4 ∧
    ((buildGraph basicRes).nodes.filter (fun n => n.ntype == "pipeline")).length = 3 ∧
    ((buildGraph basicRes).nodes.filter (fun n => n.ntype == "pipelineLabel")).length = 1 ∧
    (buildGraph basicRes).edges.map (fun e => (e.source, e.target)) =
      [("pipeline-traces-receiver-otlp", "pipeline-traces-processor-batch"),
       ("pipeline-traces-processor-batch", "pipeline-traces-exporter-debug"),
       ("pipeline-traces-receiver-otlp", "pipeline-traces-processor-batch")] := by
  exact ⟨rfl, rfl, rfl, rfl, rfl, rfl, rfl, rfl⟩

/-- C8: validate on the empty document returns an invalid result whose
only diagnostic is the Configuration-is-empty error, and buildGraph on
that result yields empty node and edge lists. -/
theorem c8_empty_document_roundtrip :
    parseOTelConfig "" docNull = Except.ok emptyDocRes ∧
    emptyDocRes.isValid = false ∧
    emptyDocRes.errors =
      [{ message := "Configuration is empty"
         line := none, column := none, severity := "error", path := none }] ∧
    (buildGraph emptyDocRes).nodes = [] ∧
    (buildGraph emptyDocRes).edges = [] := by
  exact ⟨rfl, rfl, rfl, rfl, rfl⟩

/-- C9: validate is deterministic: two calls on the identical document
text (hence identical YAML library output) yield identical results —
diagnostics, catalogs and pipelines equal in content and order. -/
theorem c9_validate_deterministic (t1 t2 : String) (d1 d2 : YamlDoc)
    (ht : t1 = t2) (hd : d1 = d2) :
    parseOTelConfig t1 d1 = parseOTelConfig t2 d2 := by
  rw [ht, hd]

/-- C9 witness: the determinism theorem applied at the basic scenario. -/
theorem c9_validate_deterministic_witness :
    parseOTelConfig textBasic docBasic = parseOTelConfig textBasic docBasic :=
  c9_validate_deterministic textBasic textBasic docBasic docBasic rfl rfl


/-- C5: a receiver defined in the catalog but absent from every
pipeline's receiver references yields exactly one diagnostic with the
structural path receivers.<id>, and that diagnostic is the unused
warning for it; analogously for processors (path processors.<id>) and
exporters (path exporters.<id>).  Within-section identifier uniqueness
(guaranteed at extraction time by JS object keys) is the Nodup
hypothesis. -/
theorem c5_unused_component_single_warning
    (config : JValue) (receivers processors exporters connectors extensions : List OTelComponent)
    (pipelines : List OTelPipeline) (enabledExtensions : List String) (doc : YNode)
    (hsvc : (jsGetSafe config "service").truthy = true) :
    (∀ rc ∈ receivers, (receivers.map (fun c => c.fullName)).Nodup →
      (pipelines.flatMap (fun p => p.receivers)).contains rc.fullName = false →
      ((validateConfig config receivers processors exporters connectors extensions
          pipelines enabledExtensions doc).countP
            (fun d => d.path == some ("receivers." ++ rc.fullName)) = 1 ∧
       ({ message := "Receiver \"" ++ rc.fullName ++ "\" is defined but not used in any pipeline"
          line := rc.lineNumber, column := none, severity := "warning"
          path := some ("receivers." ++ rc.fullName) } : ValidationError)
         ∈ validateConfig config receivers processors exporters connectors extensions
             pipelines enabledExtensions doc)) ∧
    (∀ rc ∈ processors, (processors.map (fun c => c.fullName)).Nodup →
      (pipelines.flatMap (fun p => p.processors)).contains rc.fullName = false →
      ((validateConfig config receivers processors exporters connectors extensions
          pipelines enabledExtensions doc).countP
            (fun d => d.path == some ("processors." ++ rc.fullName)) = 1 ∧
       ({ message := "Processor \"" ++ rc.fullName ++ "\" is defined but not used in any pipeline"
          line := rc.lineNumber, column := none, severity := "warning"
          path := some ("processors." ++ rc.fullName) } : ValidationError)
         ∈ validateConfig config receivers processors exporters connectors extensions
             pipelines enabledExtensions doc)) ∧
    (∀ rc ∈ exporters, (exporters.map (fun c => c.fullName)).Nodup →
      (pipelines.flatMap (fun p => p.exporters)).contains rc.fullName = false →
      ((validateConfig config receivers processors exporters connectors extensions
          pipelines enabledExtensions doc).countP
            (fun d => d.path == some ("exporters." ++ rc.fullName)) = 1 ∧
       ({ message := "Exporter \"" ++ rc.fullName ++ "\" is defined but not used in any pipeline"
          line := rc.lineNumber, column := none, severity := "warning"
          path := some ("exporters." ++ rc.fullName) } : ValidationError)
         ∈ validateConfig config receivers processors exporters connectors extensions
             pipelines enabledExtensions doc)) := by
  refine ⟨?_, ?_, ?_⟩ <;> intro rc hmem hnodup hunused <;> constructor
  · simp only [validateConfig, hsvc, Bool.not_true, Bool.false_eq_true, if_false,
      List.countP_append]
    rw [countP_missingPipelines_pathEq,
        countP_flatMap_eq_zero _ _ _ (fun q _ => countP_pipelineRefErrors_pathEq _ _ _ q _
          (fun nm suf => string_append3_ne "service.pipelines." nm suf "receivers." rc.fullName
            1 (by decide) (by decide) (by decide))),
        countP_undefExt_pathEq _ _ _ _ (string_ne_append "service.extensions" "receivers."
          rc.fullName 1 (by decide) (by decide)),
        countP_unusedComponent_pathEq_one "Receiver" "receivers." receivers _ rc hmem hnodup hunused,
        countP_unusedComponent_pathEq_zero "Processor" "processors." processors _ _
          (fun fn => string_append_ne "processors." "receivers." fn rc.fullName
            1 (by decide) (by decide) (by decide)),
        countP_unusedComponent_pathEq_zero "Exporter" "exporters." exporters _ _
          (fun fn => string_append_ne "exporters." "receivers." fn rc.fullName
            1 (by decide) (by decide) (by decide)),
        countP_unusedExtension_pathEq_zero _ _ _
          (fun fn => string_append_ne "extensions." "receivers." fn rc.fullName
            1 (by decide) (by decide) (by decide))]
  · simp only [validateConfig, hsvc, Bool.not_true, Bool.false_eq_true, if_false]
    exact List.mem_append.mpr (Or.inl (List.mem_append.mpr (Or.inl (List.mem_append.mpr
      (Or.inl (List.mem_append.mpr (Or.inr
        (mem_unusedComponentWarnings "Receiver" "receivers." receivers _ rc hmem hunused))))))))
  · simp only [validateConfig, hsvc, Bool.not_true, Bool.false_eq_true, if_false,
      List.countP_append]
    rw [countP_missingPipelines_pathEq,
        countP_flatMap_eq_zero _ _ _ (fun q _ => countP_pipelineRefErrors_pathEq _ _ _ q _
          (fun nm suf => string_append3_ne "service.pipelines." nm suf "processors." rc.fullName
            1 (by decide) (by decide) (by decide))),
        countP_undefExt_pathEq _ _ _ _ (string_ne_append "service.extensions" "processors."
          rc.fullName 1 (by decide) (by decide)),
        countP_unusedComponent_pathEq_zero "Receiver" "receivers." receivers _ _
          (fun fn => string_append_ne "receivers." "processors." fn rc.fullName
            1 (by decide) (by decide) (by decide)),
        countP_unusedComponent_pathEq_one "Processor" "processors." processors _ rc hmem hnodup hunused,
        countP_unusedComponent_pathEq_zero "Exporter" "exporters." exporters _ _
          (fun fn => string_append_ne "exporters." "processors." fn rc.fullName
            1 (by decide) (by decide) (by decide)),
        countP_unusedExtension_pathEq_zero _ _ _
          (fun fn => string_append_ne "extensions." "processors." fn rc.fullName
            1 (by decide) (by decide) (by decide))]
  · simp only [validateConfig, hsvc, Bool.not_true, Bool.false_eq_true, if_false]
    exact List.mem_append.mpr (Or.inl (List.mem_append.mpr (Or.inl (List.mem_append.mpr
      (Or.inr (mem_unusedComponentWarnings "Processor" "processors." processors _ rc hmem hunused))))))
  · simp only [validateConfig, hsvc, Bool.not_true, Bool.false_eq_true, if_false,
      List.countP_append]
    rw [countP_missingPipelines_pathEq,
        countP_flatMap_eq_zero _ _ _ (fun q _ => countP_pipelineRefErrors_pathEq _ _ _ q _
          (fun nm suf => string_append3_ne "service.pipelines." nm suf "exporters." rc.fullName
            1 (by decide) (by decide) (by decide))),
        countP_undefExt_pathEq _ _ _ _ (string_ne_append "service.extensions" "exporters."
          rc.fullName 2 (by decide) (by decide)),
        countP_unusedComponent_pathEq_zero "Receiver" "receivers." receivers _ _
          (fun fn => string_append_ne "receivers." "exporters." fn rc.fullName
            1 (by decide) (by decide) (by decide)),
        countP_unusedComponent_pathEq_zero "Processor" "processors." processors _ _
          (fun fn => string_append_ne "processors." "exporters." fn rc.fullName
            1 (by decide) (by decide) (by decide)),
        countP_unusedComponent_pathEq_one "Exporter" "exporters." exporters _ rc hmem hnodup hunused,
        countP_unusedExtension_pathEq_zero _ _ _
          (fun fn => string_append_ne "extensions." "exporters." fn rc.fullName
            3 (by decide) (by decide) (by decide))]
  · simp only [validateConfig, hsvc, Bool.not_true, Bool.false_eq_true, if_false]
    exact List.mem_append.mpr (Or.inl (List.mem_append.mpr (Or.inr
      (mem_unusedComponentWarnings "Exporter" "exporters." exporters _ rc hmem hunused))))

/-- C5 witness: an unused receiver, processor and exporter in a document
with a service section each get their single path-correlated warning. -/
theorem c5_unused_component_single_warning_witness :
    ((validateConfig (JValue.obj [("service", JValue.obj [])])
        [{ id := "receiver-otlp", type := "receiver", name := "otlp", fullName := "otlp"
           config := JValue.obj [], lineNumber := some 2 }] [] [] [] [] [] [] (YNode.map [])).countP
          (fun d => d.path == some ("receivers." ++ "otlp")) = 1) ∧
    ({ message := "Receiver \"" ++ "otlp" ++ "\" is defined but not used in any pipeline"
       line := some 2, column := none, severity := "warning"
       path := some ("receivers." ++ "otlp") } : ValidationError)
      ∈ validateConfig (JValue.obj [("service", JValue.obj [])])
          [{ id := "receiver-otlp", type := "receiver", name := "otlp", fullName := "otlp"
             config := JValue.obj [], lineNumber := some 2 }] [] [] [] [] [] [] (YNode.map []) := by
  have h := (c5_unused_component_single_warning (JValue.obj [("service", JValue.obj [])])
    [{ id := "receiver-otlp", type := "receiver", name := "otlp", fullName := "otlp"
       config := JValue.obj [], lineNumber := some 2 }] [] [] [] [] [] [] (YNode.map [])
    (by rfl)).1
    { id := "receiver-otlp", type := "receiver", name := "otlp", fullName := "otlp"
      config := JValue.obj [], lineNumber := some 2 }
    (List.mem_singleton.mpr rfl) (by simp) (by rfl)
  exact h

/-- C3: for every pipeline, every declared receiver reference outside
the union of the receiver and connector catalogs produces the exact
undefined-receiver error diagnostic (message with the pipeline name and
the reference double-quoted, line of the pipeline, receivers path);
processor references are checked against the processor catalog only and
exporter references against the union of the exporter and connector
catalogs, with the corresponding messages and paths. -/
theorem c3_undefined_reference_errors
    (config : JValue) (receivers processors exporters connectors extensions : List OTelComponent)
    (pipelines : List OTelPipeline) (enabledExtensions : List String) (doc : YNode)
    (hsvc : (jsGetSafe config "service").truthy = true)
    (p : OTelPipeline) (hp : p ∈ pipelines) :
    (∀ r ∈ p.receivers,
      (receivers.map (fun c => c.fullName) ++ connectors.map (fun c => c.fullName)).contains r = false →
      ({ message := "Pipeline \"" ++ p.name ++ "\" references undefined receiver \"" ++ r ++ "\""
         line := p.lineNumber, column := none, severity := "error"
         path := some ("service.pipelines." ++ p.name ++ ".receivers") } : ValidationError)
        ∈ validateConfig config receivers processors exporters connectors extensions
            pipelines enabledExtensions doc) ∧
    (∀ r ∈ p.processors,
      (processors.map (fun c => c.fullName)).contains r = false →
      ({ message := "Pipeline \"" ++ p.name ++ "\" references undefined processor \"" ++ r ++ "\""
         line := p.lineNumber, column := none, severity := "error"
         path := some ("service.pipelines." ++ p.name ++ ".processors") } : ValidationError)
        ∈ validateConfig config receivers processors exporters connectors extensions
            pipelines enabledExtensions doc) ∧
    (∀ r ∈ p.exporters,
      (exporters.map (fun c => c.fullName) ++ connectors.map (fun c => c.fullName)).contains r = false →
      ({ message := "Pipeline \"" ++ p.name ++ "\" references undefined exporter \"" ++ r ++ "\""
         line := p.lineNumber, column := none, severity := "error"
         path := some ("service.pipelines." ++ p.name ++ ".exporters") } : ValidationError)
        ∈ validateConfig config receivers processors exporters connectors extensions
            pipelines enabledExtensions doc) := by
  refine ⟨?_, ?_, ?_⟩ <;> intro r hr hnotin <;>
    simp only [validateConfig, hsvc, Bool.not_true, Bool.false_eq_true, if_false] <;>
    refine List.mem_append.mpr (Or.inl (List.mem_append.mpr (Or.inl (List.mem_append.mpr
      (Or.inl (List.mem_append.mpr (Or.inl (List.mem_append.mpr (Or.inl
        (List.mem_append.mpr (Or.inr (List.mem_flatMap.mpr ⟨p, hp, ?_⟩))))))))))))
  · simp only [pipelineRefErrors]
    exact List.mem_append.mpr (Or.inl (List.mem_append.mpr (Or.inl (List.mem_append.mpr
      (Or.inl (List.mem_append.mpr (Or.inl (List.mem_map.mpr
        ⟨r, List.mem_filter.mpr ⟨hr, by rw [hnotin]; rfl⟩, rfl⟩))))))))
  · simp only [pipelineRefErrors]
    exact List.mem_append.mpr (Or.inl (List.mem_append.mpr (Or.inl (List.mem_append.mpr
      (Or.inl (List.mem_append.mpr (Or.inr (List.mem_map.mpr
        ⟨r, List.mem_filter.mpr ⟨hr, by rw [hnotin]; rfl⟩, rfl⟩))))))))
  · simp only [pipelineRefErrors]
    exact List.mem_append.mpr (Or.inl (List.mem_append.mpr (Or.inl (List.mem_append.mpr
      (Or.inr (List.mem_map.mpr ⟨r, List.mem_filter.mpr ⟨hr, by rw [hnotin]; rfl⟩, rfl⟩))))))

/-- C3 witness: a pipeline referencing an undefined receiver, processor
and exporter against empty catalogs receives all three error
diagnostics. -/
theorem c3_undefined_reference_errors_witness :
    ({ message := "Pipeline \"traces\" references undefined receiver \"missing\""
       line := some 9, column := none, severity := "error"
       path := some "service.pipelines.traces.receivers" } : ValidationError)
      ∈ validateConfig (JValue.obj [("service", JValue.obj [])]) [] [] [] [] []
          [{ id := "pipeline-traces", name := "traces", type := "traces"
             receivers := ["missing"], processors := ["missingp"], exporters := ["missinge"]
             lineNumber := some 9 }] [] (YNode.map []) ∧
    ({ message := "Pipeline \"traces\" references undefined processor \"missingp\""
       line := some 9, column := none, severity := "error"
       path := some "service.pipelines.traces.processors" } : ValidationError)
      ∈ validateConfig (JValue.obj [("service", JValue.obj [])]) [] [] [] [] []
          [{ id := "pipeline-traces", name := "traces", type := "traces"
             receivers := ["missing"], processors := ["missingp"], exporters := ["missinge"]
             lineNumber := some 9 }] [] (YNode.map []) ∧
    ({ message := "Pipeline \"traces\" references undefined exporter \"missinge\""
       line := some 9, column := none, severity := "error"
       path := some "service.pipelines.traces.exporters" } : ValidationError)
      ∈ validateConfig (JValue.obj [("service", JValue.obj [])]) [] [] [] [] []
          [{ id := "pipeline-traces", name := "traces", type := "traces"
             receivers := ["missing"], processors := ["missingp"], exporters := ["missinge"]
             lineNumber := some 9 }] [] (YNode.map []) := by
  have h := c3_undefined_reference_errors (JValue.obj [("service", JValue.obj [])])
    [] [] [] [] []
    [{ id := "pipeline-traces", name := "traces", type := "traces"
       receivers := ["missing"], processors := ["missingp"], exporters := ["missinge"]
       lineNumber := some 9 }] [] (YNode.map []) (by rfl)
    { id := "pipeline-traces", name := "traces", type := "traces"
      receivers := ["missing"], processors := ["missingp"], exporters := ["missinge"]
      lineNumber := some 9 } (by simp)
  exact ⟨h.1 "missing" (by simp) (by rfl),
         h.2.1 "missingp" (by simp) (by rfl),
         h.2.2 "missinge" (by simp) (by rfl)⟩

/-- C4 counterexample: a nonblank document consisting only of a comment
decodes successfully (no syntax errors) to JS null and has no service
section, yet validate throws instead of returning the single
missing-service diagnostic. -/
theorem c4_counterexample_null_decode :
    parseOTelConfig "# only a comment\n" docCommentOnly = Except.error "TypeError" := by
  rfl

/-- C4 amended: for every successfully decoded document whose decoded
value is not nullish (so the entry point returns at all) and that has no
service section, the returned diagnostics list is exactly the single
missing-service error and isValid is false — no referential checks or
unused-component warnings run. -/
theorem c4_missing_service_single_diagnostic
    (yamlContent : String) (doc : YamlDoc)
    (htext : isBlankText yamlContent = false)
    (herr : doc.errors = [])
    (h1 : doc.contents.toJS ≠ JValue.null)
    (h2 : doc.contents.toJS ≠ JValue.undef)
    (hsvc : (jsGetSafe doc.contents.toJS "service").truthy = false) :
    ∃ res : ParseResult,
      parseOTelConfig yamlContent doc = Except.ok res ∧
      res.errors = [{ message := "Missing required \"service\" section"
                      line := none, column := none, severity := "error", path := none }] ∧
      res.isValid = false := by
  refine ⟨parsedResult doc, parseOTelConfig_eq_ok yamlContent doc htext herr h1 h2, ?_, ?_⟩
  · simp only [parsedResult, validateConfig, hsvc, Bool.not_false, if_true]
  · simp only [parsedResult, validateConfig, hsvc, Bool.not_false, if_true]
    rfl

/-- C4 witness: the amended theorem applied to a document defining only
a receivers section. -/
theorem c4_missing_service_single_diagnostic_witness :
    ∃ res : ParseResult,
      parseOTelConfig "receivers:\n  otlp: {}\n"
        { errors := [], contents := YNode.map [("receivers", some 1, YNode.map [("otlp", some 2, YNode.map [])])] }
        = Except.ok res ∧
      res.errors = [{ message := "Missing required \"service\" section"
                      line := none, column := none, severity := "error", path := none }] ∧
      res.isValid = false :=
  c4_missing_service_single_diagnostic _ _ (by rfl) rfl (by simp [YNode.toJS, toJSMap])
    (by simp [YNode.toJS, toJSMap]) (by rfl)


/-- An entry of enumFrom carries a member of the underlying list. -/
theorem snd_mem_of_mem_enumFrom {α : Type} :
    ∀ (l : List α) (n : Nat) (q : Nat × α), q ∈ l.enumFrom n → q.2 ∈ l
  | [], _, q, h => absurd h (List.not_mem_nil q)
  | a :: l, n, q, h => by
    rcases List.mem_cons.mp h with h | h
    · rw [h]
      exact List.mem_cons_self _ _
    · exact List.mem_cons_of_mem _ (snd_mem_of_mem_enumFrom l (n + 1) q h)

/-- An entry of enum carries a member of the underlying list. -/
theorem snd_mem_of_mem_enum {α : Type} (l : List α) (q : Nat × α)
    (h : q ∈ l.enum) : q.2 ∈ l :=
  snd_mem_of_mem_enumFrom l 0 q h

/-- Every member of a list appears in its enumFrom with some index. -/
theorem mem_enumFrom_of_mem {α : Type} :
    ∀ (l : List α) (n : Nat) (a : α), a ∈ l → ∃ i, (i, a) ∈ l.enumFrom n
  | [], _, a, h => absurd h (List.not_mem_nil a)
  | b :: l, n, a, h => by
    rcases List.mem_cons.mp h with h | h
    · exact ⟨n, by rw [h]; exact List.mem_cons_self _ _⟩
    · rcases mem_enumFrom_of_mem l (n + 1) a h with ⟨i, hi⟩
      exact ⟨i, List.mem_cons_of_mem _ hi⟩

/-- Every member of a list appears in its enum with some index. -/
theorem mem_enum_of_mem {α : Type} (l : List α) (a : α) (h : a ∈ l) :
    ∃ i, (i, a) ∈ l.enum :=
  mem_enumFrom_of_mem l 0 a h

/-- C10: every node of the built graph whose componentType is extension
comes from an extension of the catalog; its isActive flag equals
membership of the identifier in the enabled-extensions list, and
whenever the identifier is absent from that list the error flag is true
— for every ParseResult, in particular regardless of whether any
diagnostic path or quoted message mentions the extension. -/
theorem c10_extension_nodes_error_flag (pr : ParseResult) :
    ∀ n ∈ (buildGraph pr).nodes, n.componentType = some "extension" →
      ∃ x ∈ pr.extensions,
        n.fullName = some x.fullName ∧
        n.isActive = some (pr.enabledExtensions.contains x.fullName) ∧
        (pr.enabledExtensions.contains x.fullName = false → n.hasError = some true) := by
  intro n hn hct
  simp only [buildGraph, generateFlowElements] at hn
  rcases List.mem_append.mp hn with hn | hn
  · rcases List.mem_append.mp hn with hn | hn
    · exfalso
      rcases List.mem_flatMap.mp hn with ⟨e, _, hne⟩
      simp only [pipelineNodes] at hne
      rcases List.mem_cons.mp hne with heq | hne
      · rw [heq] at hct
        simp [mkLabelNode] at hct
      · rcases List.mem_append.mp hne with hne | hne
        · rcases List.mem_append.mp hne with hne | hne
          · rcases List.mem_map.mp hne with ⟨q, _, heq⟩
            rw [← heq] at hct
            simp only [mkComponentNode, Option.some.injEq] at hct
            revert hct
            split <;> decide
          · rcases List.mem_map.mp hne with ⟨q, _, heq⟩
            rw [← heq] at hct
            simp only [mkComponentNode, Option.some.injEq] at hct
            exact absurd hct (by decide)
        · rcases List.mem_map.mp hne with ⟨q, _, heq⟩
          rw [← heq] at hct
          simp only [mkComponentNode, Option.some.injEq] at hct
          revert hct
          split <;> decide
    · exfalso
      simp only [connectorSectionNodes] at hn
      revert hn
      split <;> intro hn
      · rcases List.mem_cons.mp hn with heq | hn
        · rw [heq] at hct
          simp [mkLabelNode] at hct
        · rcases List.mem_map.mp hn with ⟨q, _, heq⟩
          rw [← heq] at hct
          simp only [mkComponentNode, Option.some.injEq] at hct
          exact absurd hct (by decide)
      · exact List.not_mem_nil n hn
  · simp only [extensionSectionNodes] at hn
    revert hn
    split <;> intro hn
    · rcases List.mem_cons.mp hn with heq | hn
      · rw [heq] at hct
        simp [mkLabelNode] at hct
      · rcases List.mem_map.mp hn with ⟨q, hq, heq⟩
        refine ⟨q.2, snd_mem_of_mem_enum _ _ hq, ?_, ?_, ?_⟩
        · rw [← heq]
          rfl
        · rw [← heq]
          rfl
        · intro habs
          rw [← heq]
          simp only [mkExtensionNode, mkComponentNode, habs, Bool.not_false, Bool.or_true]
    · exact absurd hn (List.not_mem_nil n)

/-- C10 witness: the theorem applied to a ParseResult with one
not-enabled extension and its generated node. -/
theorem c10_extension_nodes_error_flag_witness :
    ∃ x ∈ prExtSample.extensions,
      (mkExtensionNode prExtSample [] 130 0 extHealth).fullName = some x.fullName ∧
      (mkExtensionNode prExtSample [] 130 0 extHealth).isActive =
        some (prExtSample.enabledExtensions.contains x.fullName) ∧
      (prExtSample.enabledExtensions.contains x.fullName = false →
        (mkExtensionNode prExtSample [] 130 0 extHealth).hasError = some true) :=
  c10_extension_nodes_error_flag prExtSample
    (mkExtensionNode prExtSample [] 130 0 extHealth)
    (List.mem_cons_of_mem _ (List.mem_cons_self _ _))
    rfl

/-- Splitting at a separator is unambiguous when the left parts avoid
the separator. -/
theorem noSep_sep_inj {α : Type} [DecidableEq α] (sep : α) :
    ∀ (a c r1 r2 : List α), sep ∉ a → sep ∉ c →
      a ++ sep :: r1 = c ++ sep :: r2 → a = c ∧ r1 = r2 := by
  intro a
  induction a with
  | nil =>
    intro c r1 r2 _ hc h
    cases c with
    | nil => exact ⟨rfl, by simpa using h⟩
    | cons x c =>
      simp only [List.nil_append, List.cons_append, List.cons.injEq] at h
      exact absurd (by rw [h.1]; exact List.mem_cons_self _ _) hc
  | cons x a ih =>
    intro c r1 r2 ha hc h
    cases c with
    | nil =>
      simp only [List.cons_append, List.nil_append, List.cons.injEq] at h
      exact absurd (by rw [← h.1]; exact List.mem_cons_self _ _) ha
    | cons y c =>
      simp only [List.cons_append, List.cons.injEq] at h
      obtain ⟨rfl, h2⟩ := h
      have hr := ih c r1 r2 (fun hm => ha (List.mem_cons_of_mem _ hm))
        (fun hm => hc (List.mem_cons_of_mem _ hm)) h2
      exact ⟨by rw [hr.1], hr.2⟩

/-- Character data of a slot node id, in separator-split form. -/
theorem slotId_data (pn k n : String) :
    (("pipeline-" ++ pn) ++ ("-" ++ k ++ "-") ++ n).data
      = ("pipeline-" : String).data ++ (pn.data ++ ('-' :: (k.data ++ '-' :: n.data))) := by
  simp only [String.data_append, List.append_assoc]
  rfl

/-- Slot node ids are unambiguous when the pipeline names and the kind
words avoid the dash character. -/
theorem slotId_inj (pn1 k1 n1 pn2 k2 n2 : String)
    (hp1 : '-' ∈ pn1.data → False) (hp2 : '-' ∈ pn2.data → False)
    (hk1 : '-' ∈ k1.data → False) (hk2 : '-' ∈ k2.data → False)
    (h : ("pipeline-" ++ pn1) ++ ("-" ++ k1 ++ "-") ++ n1
       = ("pipeline-" ++ pn2) ++ ("-" ++ k2 ++ "-") ++ n2) :
    pn1 = pn2 ∧ k1 = k2 ∧ n1 = n2 := by
  have hd := congrArg String.data h
  rw [slotId_data, slotId_data] at hd
  have h1 := List.append_cancel_left hd
  obtain ⟨e1, h2⟩ := noSep_sep_inj '-' _ _ _ _ hp1 hp2 h1
  obtain ⟨e2, e3⟩ := noSep_sep_inj '-' _ _ _ _ hk1 hk2 h2
  exact ⟨String.ext e1, String.ext e2, String.ext e3⟩

/-- Receiver slot id in separator-split form. -/
theorem receiverNodeId_shape (p : OTelPipeline) (n : String)
    (hid : p.id = "pipeline-" ++ p.name) :
    receiverNodeId p n = ("pipeline-" ++ p.name) ++ ("-" ++ "receiver" ++ "-") ++ n := by
  unfold receiverNodeId
  rw [hid, (by decide : ("-receiver-" : String) = "-" ++ "receiver" ++ "-")]

/-- Processor slot id in separator-split form. -/
theorem processorNodeId_shape (p : OTelPipeline) (n : String)
    (hid : p.id = "pipeline-" ++ p.name) :
    processorNodeId p n = ("pipeline-" ++ p.name) ++ ("-" ++ "processor" ++ "-") ++ n := by
  unfold processorNodeId
  rw [hid, (by decide : ("-processor-" : String) = "-" ++ "processor" ++ "-")]

/-- Exporter slot id in separator-split form. -/
theorem exporterNodeId_shape (p : OTelPipeline) (n : String)
    (hid : p.id = "pipeline-" ++ p.name) :
    exporterNodeId p n = ("pipeline-" ++ p.name) ++ ("-" ++ "exporter" ++ "-") ++ n := by
  unfold exporterNodeId
  rw [hid, (by decide : ("-exporter-" : String) = "-" ++ "exporter" ++ "-")]

/-- Indexed member of enumFrom. -/
theorem getD_mem_enumFrom {α : Type} (d : α) :
    ∀ (l : List α) (n i : Nat), i < l.length → (n + i, l.getD i d) ∈ l.enumFrom n
  | [], _, i, h => absurd h (Nat.not_lt_zero i)
  | a :: l, n, 0, _ => by
    simpa using List.mem_cons_self (n, a) (l.enumFrom (n + 1))
  | a :: l, n, i + 1, h => by
    have hm := getD_mem_enumFrom d l (n + 1) i (Nat.lt_of_succ_lt_succ h)
    have he : n + (i + 1) = (n + 1) + i := by omega
    rw [he]
    exact List.mem_cons_of_mem _ hm

/-- Indexed member of enum. -/
theorem getD_mem_enum {α : Type} (l : List α) (i : Nat) (h : i < l.length) (d : α) :
    (i, l.getD i d) ∈ l.enum := by
  simpa using getD_mem_enumFrom d l 0 i h

/-- An enumFrom entry determines the list element at its index. -/
theorem getD_of_mem_enumFrom {α : Type} (d : α) :
    ∀ (l : List α) (n : Nat) (q : Nat × α), q ∈ l.enumFrom n →
      n ≤ q.1 ∧ q.1 - n < l.length ∧ l.getD (q.1 - n) d = q.2
  | [], _, q, h => absurd h (List.not_mem_nil q)
  | a :: l, n, q, h => by
    rcases List.mem_cons.mp h with h | h
    · subst h
      exact ⟨Nat.le_refl n, by simp, by simp⟩
    · obtain ⟨h1, h2, h3⟩ := getD_of_mem_enumFrom d l (n + 1) q h
      refine ⟨by omega, by simp only [List.length_cons]; omega, ?_⟩
      have he : q.1 - n = (q.1 - (n + 1)) + 1 := by omega
      rw [he]
      simpa using h3

/-- An enum entry determines the list element at its index. -/
theorem getD_of_mem_enum {α : Type} (d : α) (l : List α) (q : Nat × α)
    (h : q ∈ l.enum) : q.1 < l.length ∧ l.getD q.1 d = q.2 := by
  have := getD_of_mem_enumFrom d l 0 q h
  simpa using this

/-- In-range getD is membership. -/
theorem getD_mem {α : Type} (d : α) :
    ∀ (l : List α) (i : Nat), i < l.length → l.getD i d ∈ l
  | [], i, h => absurd h (Nat.not_lt_zero i)
  | a :: l, 0, _ => List.mem_cons_self a l
  | a :: l, i + 1, h => List.mem_cons_of_mem a (getD_mem d l i (Nat.lt_of_succ_lt_succ h))

/-- getLastD as an in-range getD. -/
theorem getLastD_eq_getD {α : Type} (l : List α) (d : α) :
    l.getLastD d = l.getD (l.length - 1) d := by
  rw [List.getLastD_eq_getLast?, List.getLast?_eq_getElem?, List.getD_eq_getElem?_getD]

/-- Every edge of a chain either leaves the initial previous node into
the first element or joins adjacent elements. -/
theorem chainEdges_source_shape (stroke : String → String) (nid : String → String) :
    ∀ (prev : Option String) (l : List String) (e : ProtoEdge),
      e ∈ chainEdges stroke nid prev l →
      (∃ s, prev = some s ∧ l ≠ [] ∧ e.source = s ∧ e.target = nid (l.headD "")) ∨
      (∃ i, i + 1 < l.length ∧ e.source = nid (l.getD i "") ∧
        e.target = nid (l.getD (i + 1) "")) := by
  intro prev l
  induction l generalizing prev with
  | nil =>
    intro e he
    simp [chainEdges] at he
  | cons a rest ih =>
    intro e he
    simp only [chainEdges] at he
    rcases List.mem_append.mp he with he | he
    · cases prev with
      | none => simp at he
      | some s =>
        simp only [List.mem_singleton] at he
        subst he
        exact Or.inl ⟨s, rfl, by simp, rfl, rfl⟩
    · rcases ih (some (nid a)) e he with ⟨s, hs, hne, hsrc, htgt⟩ | ⟨i, hlen, hsrc, htgt⟩
      · have hsa : s = nid a := by
          have := Option.some.inj hs
          rw [this]
        refine Or.inr ⟨0, ?_, ?_, ?_⟩
        · cases rest with
          | nil => exact absurd rfl hne
          | cons b t => simp
        · rw [hsrc, hsa]
          rfl
        · cases rest with
          | nil => exact absurd rfl hne
          | cons b t => simpa using htgt
      · refine Or.inr ⟨i + 1, ?_, by simpa using hsrc, by simpa using htgt⟩
        simp only [List.length_cons]
        omega

/-- The first edge of a chain with a previous node exists. -/
theorem chainEdges_first_mem (stroke : String → String) (nid : String → String)
    (s : String) (l : List String) (hl : l ≠ []) :
    ∃ e ∈ chainEdges stroke nid (some s) l, e.source = s ∧ e.target = nid (l.headD "") := by
  cases l with
  | nil => exact absurd rfl hl
  | cons a rest =>
    refine ⟨{ idSuffix := s ++ "-" ++ nid a, source := s, target := nid a
              stroke := stroke a, dashed := false, label := none }, ?_, rfl, rfl⟩
    simp only [chainEdges]
    exact List.mem_append.mpr (Or.inl (List.mem_singleton.mpr rfl))

/-- Every adjacent pair of a chain is joined by an edge. -/
theorem chainEdges_adjacent_mem (stroke : String → String) (nid : String → String) :
    ∀ (prev : Option String) (l : List String) (i : Nat), i + 1 < l.length →
      ∃ e ∈ chainEdges stroke nid prev l,
        e.source = nid (l.getD i "") ∧ e.target = nid (l.getD (i + 1) "") := by
  intro prev l
  induction l generalizing prev with
  | nil =>
    intro i h
    exact absurd h (by simp)
  | cons a rest ih =>
    intro i h
    cases i with
    | zero =>
      cases rest with
      | nil => simp at h
      | cons b t =>
        obtain ⟨e, he, hsrc, htgt⟩ := chainEdges_first_mem stroke nid (nid a) (b :: t) (by simp)
        refine ⟨e, ?_, by simpa using hsrc, by simpa using htgt⟩
        simp only [chainEdges]
        exact List.mem_append.mpr (Or.inr he)
    | succ i =>
      obtain ⟨e, he, hsrc, htgt⟩ := ih (some (nid a)) i (by simpa using h)
      refine ⟨e, ?_, by simpa using hsrc, by simpa using htgt⟩
      simp only [chainEdges]
      exact List.mem_append.mpr (Or.inr he)

/-- The previous node after a nonempty receiver loop. -/
theorem prevAfterReceivers_eq (p : OTelPipeline) (h : p.receivers ≠ []) :
    prevAfterReceivers p = some (receiverNodeId p (p.receivers.getLastD "")) := by
  unfold prevAfterReceivers
  rcases hgl : p.receivers.getLast? with _ | a
  · exact absurd (List.getLast?_eq_none_iff.mp hgl) h
  · rw [List.getLastD_eq_getLast?, hgl]
    rfl

/-- The previous node after a nonempty processor loop. -/
theorem prevAfterProcessors_eq (p : OTelPipeline) (h : p.processors ≠ []) :
    prevAfterProcessors p = some (processorNodeId p (p.processors.getLastD "")) := by
  unfold prevAfterProcessors
  rcases hgl : p.processors.getLast? with _ | a
  · exact absurd (List.getLast?_eq_none_iff.mp hgl) h
  · rw [List.getLastD_eq_getLast?, hgl]
    rfl

/-- Every fan-in edge leaves the last receiver into the first downstream
stage. -/
theorem fanIn_shape (pr : ParseResult) (p : OTelPipeline) (e : ProtoEdge)
    (he : e ∈ fanInEdges pr p) :
    p.receivers ≠ [] ∧ ∃ t, firstDownstreamId p = some t ∧
      e.source = receiverNodeId p (p.receivers.getLastD "") ∧ e.target = t := by
  unfold fanInEdges at he
  split at he
  · split at he
    · next t heq =>
      rcases List.mem_filterMap.mp he with ⟨q, hq, hfq⟩
      refine ⟨by rwa [← List.length_pos], t, heq, ?_⟩
      revert hfq
      split
      · next hidx =>
        intro hfq
        injection hfq with hfq
        subst hfq
        obtain ⟨hql, hqd⟩ := getD_of_mem_enum "" p.receivers q hq
        have hq1 : q.1 = p.receivers.length - 1 := by simpa using hidx
        constructor
        · show receiverNodeId p q.2 = _
          rw [getLastD_eq_getD, ← hq1, hqd]
        · rfl
      · intro hfq
        exact absurd hfq (by simp)
    · exact absurd he (List.not_mem_nil e)
  · exact absurd he (List.not_mem_nil e)

/-- The fan-in edge exists whenever receivers and a downstream stage
exist. -/
theorem fanIn_mem (pr : ParseResult) (p : OTelPipeline) (t : String)
    (hne : p.receivers ≠ []) (ht : firstDownstreamId p = some t) :
    ∃ e ∈ fanInEdges pr p,
      e.source = receiverNodeId p (p.receivers.getLastD "") ∧ e.target = t := by
  unfold fanInEdges
  rw [if_pos (List.length_pos.mpr hne), ht]
  refine ⟨{ idSuffix := receiverNodeId p (p.receivers.getLastD "") ++ "-" ++ t
            source := receiverNodeId p (p.receivers.getLastD "")
            target := t
            stroke := if isConnectorName (p.receivers.getLastD "") pr.connectors
              then "#f59e0b" else "#22d3ee"
            dashed := false, label := none },
    List.mem_filterMap.mpr
      ⟨(p.receivers.length - 1, p.receivers.getLastD ""), ?_, ?_⟩, rfl, rfl⟩
  · rw [getLastD_eq_getD]
    exact getD_mem_enum _ _ (by have := List.length_pos.mpr hne; omega) ""
  · simp

/-- Every edge generated inside one pipeline leaves the last receiver, a
processor slot, or an exporter slot of that pipeline, and is not
dashed. -/
theorem pipelineProtoEdges_source_shape (pr : ParseResult) (q : OTelPipeline)
    (e : ProtoEdge) (he : e ∈ pipelineProtoEdges pr q) :
    ((q.receivers ≠ [] ∧ e.source = receiverNodeId q (q.receivers.getLastD "")) ∨
     (∃ x ∈ q.processors, e.source = processorNodeId q x) ∨
     (∃ x ∈ q.exporters, e.source = exporterNodeId q x)) := by
  unfold pipelineProtoEdges at he
  rcases List.mem_append.mp he with he | he
  · rcases List.mem_append.mp he with he | he
    · rcases chainEdges_source_shape _ _ _ _ _ he with
        ⟨s, hs, _, hsrc, _⟩ | ⟨i, hlen, hsrc, _⟩
      · rcases hgl : q.receivers.getLast? with _ | a
        · rw [prevAfterReceivers, hgl] at hs
          exact absurd hs (by simp)
        · have hne : q.receivers ≠ [] := by
            intro hnil
            rw [hnil] at hgl
            exact absurd hgl (by simp)
          rw [prevAfterReceivers_eq q hne] at hs
          exact Or.inl ⟨hne, by rw [hsrc, Option.some.inj hs]⟩
      · exact Or.inr (Or.inl ⟨q.processors.getD i "", getD_mem _ _ _ (by omega), hsrc⟩)
    · rcases chainEdges_source_shape _ _ _ _ _ he with
        ⟨s, hs, _, hsrc, _⟩ | ⟨i, hlen, hsrc, _⟩
      · rcases hgl : q.processors.getLast? with _ | a
        · have hpe : q.processors = [] := List.getLast?_eq_none_iff.mp hgl
          rw [prevAfterProcessors, hgl] at hs
          rcases hgr : q.receivers.getLast? with _ | b
          · rw [prevAfterReceivers, hgr] at hs
            exact absurd hs (by simp)
          · have hne : q.receivers ≠ [] := by
              intro hnil
              rw [hnil] at hgr
              exact absurd hgr (by simp)
            rw [prevAfterReceivers_eq q hne] at hs
            exact Or.inl ⟨hne, by rw [hsrc, Option.some.inj hs]⟩
        · have hne : q.processors ≠ [] := by
            intro hnil
            rw [hnil] at hgl
            exact absurd hgl (by simp)
          rw [prevAfterProcessors_eq q hne] at hs
          exact Or.inr (Or.inl ⟨q.processors.getLastD "",
            by rw [getLastD_eq_getD]; exact getD_mem _ _ _ (by have := List.length_pos.mpr hne; omega),
            by rw [hsrc, Option.some.inj hs]⟩)
      · exact Or.inr (Or.inr ⟨q.exporters.getD i "", getD_mem _ _ _ (by omega), hsrc⟩)
  · obtain ⟨hne, t, _, hsrc, _⟩ := fanIn_shape pr q e he
    exact Or.inl ⟨hne, hsrc⟩

/-- Closure of pushConn under a per-entry predicate. -/
theorem pushConn_forall (P : String → ConnEntry → Prop)
    (m : List (String × List ConnEntry)) (k : String) (e : ConnEntry)
    (hm : ∀ kv ∈ m, ∀ en ∈ kv.2, P kv.1 en) (he : P k e) :
    ∀ kv ∈ pushConn m k e, ∀ en ∈ kv.2, P kv.1 en := by
  intro kv hkv en hen
  unfold pushConn at hkv
  split at hkv
  · rcases List.mem_map.mp hkv with ⟨kv0, hkv0, heq⟩
    by_cases hk : (kv0.1 == k) = true
    · rw [if_pos hk] at heq
      rw [← heq] at hen ⊢
      rcases List.mem_append.mp hen with hen | hen
      · exact hm kv0 hkv0 en hen
      · simp only [List.mem_singleton] at hen
        subst hen
        have : kv0.1 = k := by simpa using hk
        rw [this]
        exact he
    · rw [if_neg hk] at heq
      rw [← heq] at hen ⊢
      exact hm kv0 hkv0 en hen
  · rcases List.mem_append.mp hkv with hkv | hkv
    · exact hm kv hkv en hen
    · simp only [List.mem_singleton] at hkv
      subst hkv
      simp only [List.mem_singleton] at hen
      subst hen
      exact he

/-- Closure of the grouping fold under a per-entry predicate. -/
theorem foldl_pushConn_forall (P : String → ConnEntry → Prop) :
    ∀ (occs : List (String × ConnEntry)) (m : List (String × List ConnEntry)),
      (∀ kv ∈ m, ∀ en ∈ kv.2, P kv.1 en) → (∀ oc ∈ occs, P oc.1 oc.2) →
      ∀ kv ∈ occs.foldl (fun acc kv => pushConn acc kv.1 kv.2) m, ∀ en ∈ kv.2, P kv.1 en
  | [], _, hm, _ => hm
  | oc :: occs, m, hm, hocc => by
    have hm2 := pushConn_forall P m oc.1 oc.2 hm (hocc oc (List.mem_cons_self _ _))
    exact foldl_pushConn_forall P occs _ hm2 (fun o ho => hocc o (List.mem_cons_of_mem _ ho))

/-- Every entry tracked in the connector map comes from the occurrence
stream. -/
theorem connectorMap_entries_mem (pr : ParseResult) :
    ∀ kv ∈ connectorMap pr, ∀ en ∈ kv.2, (kv.1, en) ∈ connectorEntries pr := by
  unfold connectorMap
  exact foldl_pushConn_forall (fun k en => (k, en) ∈ connectorEntries pr)
    (connectorEntries pr) [] (fun kv h => absurd h (List.not_mem_nil kv))
    (fun oc ho => ho)

/-- Shape of one occurrence-stream element. -/
theorem connectorEntries_shape (pr : ParseResult) (k : String) (en : ConnEntry)
    (h : (k, en) ∈ connectorEntries pr) :
    ∃ q ∈ pr.pipelines, en.pipelineId = q.id ∧
      ((en.role = "receiver" ∧ k ∈ q.receivers ∧ en.nodeId = receiverNodeId q k) ∨
       (en.role = "exporter" ∧ k ∈ q.exporters ∧ en.nodeId = exporterNodeId q k)) := by
  unfold connectorEntries at h
  rcases List.mem_flatMap.mp h with ⟨q, hq, hin⟩
  rcases List.mem_append.mp hin with hin | hin
  · rcases List.mem_map.mp hin with ⟨r, hr, heq⟩
    have h1 : r = k := congrArg Prod.fst heq
    have h2 : ({ nodeId := receiverNodeId q r, pipelineId := q.id
                 role := "receiver" } : ConnEntry) = en := congrArg Prod.snd heq
    subst h1
    rw [← h2]
    exact ⟨q, hq, rfl, Or.inl ⟨rfl, (List.mem_filter.mp hr).1, rfl⟩⟩
  · rcases List.mem_map.mp hin with ⟨r, hr, heq⟩
    have h1 : r = k := congrArg Prod.fst heq
    have h2 : ({ nodeId := exporterNodeId q r, pipelineId := q.id
                 role := "exporter" } : ConnEntry) = en := congrArg Prod.snd heq
    subst h1
    rw [← h2]
    exact ⟨q, hq, rfl, Or.inr ⟨rfl, (List.mem_filter.mp hr).1, rfl⟩⟩

/-- Every cross-pipeline edge is dashed and joins an exporter-role
occurrence to a receiver-role occurrence of the same connector name in a
different pipeline. -/
theorem crossProtoEdges_shape (pr : ParseResult) (e : ProtoEdge)
    (he : e ∈ crossProtoEdges pr) :
    ∃ k, ∃ x y : ConnEntry, (k, x) ∈ connectorEntries pr ∧ (k, y) ∈ connectorEntries pr ∧
      x.role = "exporter" ∧ y.role = "receiver" ∧ x.pipelineId ≠ y.pipelineId ∧
      e.source = x.nodeId ∧ e.target = y.nodeId ∧ e.dashed = true := by
  unfold crossProtoEdges at he
  rcases List.mem_flatMap.mp he with ⟨kv, hkv, hin⟩
  rcases List.mem_flatMap.mp hin with ⟨x, hx, hin2⟩
  rcases List.mem_filterMap.mp hin2 with ⟨y, hy, heq⟩
  obtain ⟨hx2, hxrole⟩ := List.mem_filter.mp hx
  obtain ⟨hy2, hyrole⟩ := List.mem_filter.mp hy
  revert heq
  split
  · next hpid =>
    intro heq
    injection heq with heq
    subst heq
    exact ⟨kv.1, x, y, connectorMap_entries_mem pr kv hkv x hx2,
      connectorMap_entries_mem pr kv hkv y hy2,
      by simpa using hxrole, by simpa using hyrole,
      by simpa using hpid, rfl, rfl, rfl⟩
  · intro heq
    exact absurd heq (by simp)

/-- Every final edge carries the source, target and style of some
generated proto edge. -/
theorem edges_shape (pr : ParseResult) (errors : List ValidationError) (e : FlowEdge)
    (he : e ∈ (generateFlowElements pr errors).edges) :
    ∃ pe : ProtoEdge,
      pe ∈ pr.pipelines.flatMap (fun p => pipelineProtoEdges pr p) ++ crossProtoEdges pr ∧
      e.source = pe.source ∧ e.target = pe.target ∧ e.dashed = pe.dashed := by
  simp only [generateFlowElements] at he
  rcases List.mem_map.mp he with ⟨q, hq, heq⟩
  exact ⟨q.2, snd_mem_of_mem_enum _ _ hq, by rw [← heq]; rfl, by rw [← heq]; rfl,
    by rw [← heq]; rfl⟩

/-- Every generated proto edge appears among the final edges with its
source, target and style. -/
theorem mem_edges_of_proto (pr : ParseResult) (errors : List ValidationError)
    (pe : ProtoEdge)
    (hpe : pe ∈ pr.pipelines.flatMap (fun p => pipelineProtoEdges pr p) ++ crossProtoEdges pr) :
    ∃ e ∈ (generateFlowElements pr errors).edges,
      e.source = pe.source ∧ e.target = pe.target ∧ e.dashed = pe.dashed := by
  obtain ⟨i, hi⟩ := mem_enum_of_mem _ _ hpe
  exact ⟨assignEdgeId (i, pe), List.mem_map.mpr ⟨(i, pe), hi, rfl⟩, rfl, rfl, rfl⟩

/-- C7: in the built graph of a clean ParseResult (extractor-shaped
pipeline ids, dash-free distinct pipeline names), for every pipeline
with more than one declared receiver and a first downstream stage, the
last-declared receiver has a fan-in edge into that stage while no edge
at all leaves any other receiver slot of the pipeline; processor and
exporter stages are joined in a straight sequential chain in
declaration order, with the last processor feeding the first
exporter. -/
theorem c7_fan_in_last_receiver_only
    (pr : ParseResult) (errors : List ValidationError) (p : OTelPipeline) (T : String)
    (hclean : ∀ q ∈ pr.pipelines, cleanPipeline q)
    (hnodup : (pr.pipelines.map (fun q => q.name)).Nodup)
    (hp : p ∈ pr.pipelines)
    (hlen : 1 < p.receivers.length)
    (hT : firstDownstreamId p = some T) :
    (∃ e ∈ (generateFlowElements pr errors).edges,
        e.source = receiverNodeId p (p.receivers.getLastD "") ∧ e.target = T) ∧
    (∀ e ∈ (generateFlowElements pr errors).edges, ∀ r ∈ p.receivers,
        e.source = receiverNodeId p r → r = p.receivers.getLastD "") ∧
    (∀ i, i + 1 < p.processors.length →
       ∃ e ∈ (generateFlowElements pr errors).edges,
         e.source = processorNodeId p (p.processors.getD i "") ∧
         e.target = processorNodeId p (p.processors.getD (i + 1) "")) ∧
    (∀ i, i + 1 < p.exporters.length →
       ∃ e ∈ (generateFlowElements pr errors).edges,
         e.source = exporterNodeId p (p.exporters.getD i "") ∧
         e.target = exporterNodeId p (p.exporters.getD (i + 1) "")) ∧
    (p.processors ≠ [] → p.exporters ≠ [] →
       ∃ e ∈ (generateFlowElements pr errors).edges,
         e.source = processorNodeId p (p.processors.getLastD "") ∧
         e.target = exporterNodeId p (p.exporters.headD "")) := by
  have hne : p.receivers ≠ [] := by
    intro hnil
    rw [hnil] at hlen
    exact absurd hlen (by simp)
  obtain ⟨hidp, hdashp⟩ := hclean p hp
  refine ⟨?_, ?_, ?_, ?_, ?_⟩
  · obtain ⟨pe, hpe, hsrc, htgt⟩ := fanIn_mem pr p T hne hT
    obtain ⟨e, he, hes, het, _⟩ := mem_edges_of_proto pr errors pe
      (List.mem_append.mpr (Or.inl (List.mem_flatMap.mpr ⟨p, hp,
        List.mem_append.mpr (Or.inr hpe)⟩)))
    exact ⟨e, he, by rw [hes, hsrc], by rw [het, htgt]⟩
  · intro e he r hr hsrc
    obtain ⟨pe, hpe, hes, _, _⟩ := edges_shape pr errors e he
    rw [hsrc] at hes
    rcases List.mem_append.mp hpe with hpe | hpe
    · rcases List.mem_flatMap.mp hpe with ⟨q, hq, hpin⟩
      obtain ⟨hidq, hdashq⟩ := hclean q hq
      rcases pipelineProtoEdges_source_shape pr q pe hpin with
        ⟨hqne, hqs⟩ | ⟨x, hx, hqs⟩ | ⟨x, hx, hqs⟩
      · rw [hqs] at hes
        rw [receiverNodeId_shape p r hidp, receiverNodeId_shape q _ hidq] at hes
        obtain ⟨hn, _, hr2⟩ := slotId_inj _ _ _ _ _ _ hdashp hdashq
          (by decide) (by decide) hes
        have hqp : q = p := List.inj_on_of_nodup_map hnodup hq hp hn.symm
        rw [hr2, hqp]
      · rw [hqs] at hes
        rw [receiverNodeId_shape p r hidp, processorNodeId_shape q x hidq] at hes
        obtain ⟨_, hk, _⟩ := slotId_inj _ _ _ _ _ _ hdashp hdashq
          (by decide) (by decide) hes
        exact absurd hk (by decide)
      · rw [hqs] at hes
        rw [receiverNodeId_shape p r hidp, exporterNodeId_shape q x hidq] at hes
        obtain ⟨_, hk, _⟩ := slotId_inj _ _ _ _ _ _ hdashp hdashq
          (by decide) (by decide) hes
        exact absurd hk (by decide)
    · obtain ⟨k, x, y, hxs, _, hxrole, _, _, hsx, _, _⟩ := crossProtoEdges_shape pr pe hpe
      obtain ⟨q, hq, _, hcase⟩ := connectorEntries_shape pr k x hxs
      obtain ⟨hidq, hdashq⟩ := hclean q hq
      rcases hcase with ⟨hrole2, _, _⟩ | ⟨_, _, hnode⟩
      · rw [hxrole] at hrole2
        exact absurd hrole2 (by decide)
      · rw [hsx, hnode] at hes
        rw [receiverNodeId_shape p r hidp, exporterNodeId_shape q k hidq] at hes
        obtain ⟨_, hk, _⟩ := slotId_inj _ _ _ _ _ _ hdashp hdashq
          (by decide) (by decide) hes
        exact absurd hk (by decide)
  · intro i hi
    obtain ⟨pe, hpe, hsrc, htgt⟩ := chainEdges_adjacent_mem (fun _ => "#a855f7")
      (fun n => processorNodeId p n) (prevAfterReceivers p) p.processors i hi
    obtain ⟨e, he, hes, het, _⟩ := mem_edges_of_proto pr errors pe
      (List.mem_append.mpr (Or.inl (List.mem_flatMap.mpr ⟨p, hp,
        List.mem_append.mpr (Or.inl (List.mem_append.mpr (Or.inl hpe)))⟩)))
    exact ⟨e, he, by rw [hes, hsrc], by rw [het, htgt]⟩
  · intro i hi
    obtain ⟨pe, hpe, hsrc, htgt⟩ := chainEdges_adjacent_mem
      (fun n => if isConnectorName n pr.connectors then "#f59e0b" else "#10b981")
      (fun n => exporterNodeId p n) (prevAfterProcessors p) p.exporters i hi
    obtain ⟨e, he, hes, het, _⟩ := mem_edges_of_proto pr errors pe
      (List.mem_append.mpr (Or.inl (List.mem_flatMap.mpr ⟨p, hp,
        List.mem_append.mpr (Or.inl (List.mem_append.mpr (Or.inr hpe)))⟩)))
    exact ⟨e, he, by rw [hes, hsrc], by rw [het, htgt]⟩
  · intro hpne hene
    obtain ⟨pe, hpe, hsrc, htgt⟩ := chainEdges_first_mem
      (fun n => if isConnectorName n pr.connectors then "#f59e0b" else "#10b981")
      (fun n => exporterNodeId p n) (processorNodeId p (p.processors.getLastD ""))
      p.exporters hene
    rw [← prevAfterProcessors_eq p hpne] at hpe
    obtain ⟨e, he, hes, het, _⟩ := mem_edges_of_proto pr errors pe
      (List.mem_append.mpr (Or.inl (List.mem_flatMap.mpr ⟨p, hp,
        List.mem_append.mpr (Or.inl (List.mem_append.mpr (Or.inr hpe)))⟩)))
    exact ⟨e, he, by rw [hes, hsrc], by rw [het, htgt]⟩

/-- C7 witness: the fan-in theorem applied to a pipeline with receivers
a and b, processors c1 and c2, and exporters d1 and d2. -/
theorem c7_fan_in_last_receiver_only_witness :
    (∃ e ∈ (generateFlowElements prFanSample []).edges,
        e.source = receiverNodeId pFan (pFan.receivers.getLastD "") ∧
        e.target = "pipeline-traces-processor-c1") ∧
    (∀ e ∈ (generateFlowElements prFanSample []).edges, ∀ r ∈ pFan.receivers,
        e.source = receiverNodeId pFan r → r = pFan.receivers.getLastD "") ∧
    (∀ i, i + 1 < pFan.processors.length →
       ∃ e ∈ (generateFlowElements prFanSample []).edges,
         e.source = processorNodeId pFan (pFan.processors.getD i "") ∧
         e.target = processorNodeId pFan (pFan.processors.getD (i + 1) "")) ∧
    (∀ i, i + 1 < pFan.exporters.length →
       ∃ e ∈ (generateFlowElements prFanSample []).edges,
         e.source = exporterNodeId pFan (pFan.exporters.getD i "") ∧
         e.target = exporterNodeId pFan (pFan.exporters.getD (i + 1) "")) ∧
    (pFan.processors ≠ [] → pFan.exporters ≠ [] →
       ∃ e ∈ (generateFlowElements prFanSample []).edges,
         e.source = processorNodeId pFan (pFan.processors.getLastD "") ∧
         e.target = exporterNodeId pFan (pFan.exporters.headD "")) :=
  c7_fan_in_last_receiver_only prFanSample [] pFan "pipeline-traces-processor-c1"
    (by decide) (by decide) (by decide) (by decide) (by decide)

/-- A nonempty list contains its default head. -/
theorem headD_mem {α : Type} (d : α) (l : List α) (h : l ≠ []) : l.headD d ∈ l := by
  cases l with
  | nil => exact absurd rfl h
  | cons a t => exact List.mem_cons_self a t

/-- The first downstream stage is a processor or exporter slot of the
pipeline. -/
theorem firstDownstreamId_shape (p : OTelPipeline) (t : String)
    (h : firstDownstreamId p = some t) :
    (∃ x ∈ p.processors, t = processorNodeId p x) ∨
    (∃ x ∈ p.exporters, t = exporterNodeId p x) := by
  unfold firstDownstreamId at h
  split at h
  · next hl =>
    exact Or.inl ⟨p.processors.headD "", headD_mem _ _ (by rwa [← List.length_pos]),
      (Option.some.inj h).symm⟩
  · split at h
    · next hl =>
      exact Or.inr ⟨p.exporters.headD "", headD_mem _ _ (by rwa [← List.length_pos]),
        (Option.some.inj h).symm⟩
    · exact absurd h (by simp)

/-- Every edge generated inside one pipeline enters a processor or
exporter slot of that pipeline. -/
theorem pipelineProtoEdges_target_shape (pr : ParseResult) (q : OTelPipeline)
    (e : ProtoEdge) (he : e ∈ pipelineProtoEdges pr q) :
    (∃ x ∈ q.processors, e.target = processorNodeId q x) ∨
    (∃ x ∈ q.exporters, e.target = exporterNodeId q x) := by
  unfold pipelineProtoEdges at he
  rcases List.mem_append.mp he with he | he
  · rcases List.mem_append.mp he with he | he
    · rcases chainEdges_source_shape _ _ _ _ _ he with
        ⟨s, _, hne, _, htgt⟩ | ⟨i, hlen, _, htgt⟩
      · exact Or.inl ⟨q.processors.headD "", headD_mem _ _ hne, htgt⟩
      · exact Or.inl ⟨q.processors.getD (i + 1) "", getD_mem _ _ _ hlen, htgt⟩
    · rcases chainEdges_source_shape _ _ _ _ _ he with
        ⟨s, _, hne, _, htgt⟩ | ⟨i, hlen, _, htgt⟩
      · exact Or.inr ⟨q.exporters.headD "", headD_mem _ _ hne, htgt⟩
      · exact Or.inr ⟨q.exporters.getD (i + 1) "", getD_mem _ _ _ hlen, htgt⟩
  · obtain ⟨_, t, ht, _, htgt⟩ := fanIn_shape pr q e he
    rcases firstDownstreamId_shape q t ht with ⟨x, hx, hxe⟩ | ⟨x, hx, hxe⟩
    · exact Or.inl ⟨x, hx, by rw [htgt, hxe]⟩
    · exact Or.inr ⟨x, hx, by rw [htgt, hxe]⟩

/-- Counting edges by source and target passes through id assignment. -/
theorem countP_map_enumFrom_assign (S T : String) :
    ∀ (l : List ProtoEdge) (n : Nat),
      (((l.enumFrom n).map assignEdgeId).countP (fun e => e.source == S && e.target == T))
        = l.countP (fun pe => pe.source == S && pe.target == T)
  | [], _ => rfl
  | a :: l, n => by
    simp only [List.enumFrom, List.map_cons, List.countP_cons,
      countP_map_enumFrom_assign S T l (n + 1)]
    rfl

/-- Counting final edges by source and target equals counting the
generated proto edges. -/
theorem countP_edges_ST (pr : ParseResult) (errors : List ValidationError) (S T : String) :
    ((generateFlowElements pr errors).edges.countP (fun e => e.source == S && e.target == T))
      = ((pr.pipelines.flatMap (fun p => pipelineProtoEdges pr p) ++ crossProtoEdges pr).countP
          (fun pe => pe.source == S && pe.target == T)) := by
  simp only [generateFlowElements, List.enum]
  exact countP_map_enumFrom_assign S T _ 0

/-- A mapped sum collapses to the one block selected by a predicate. -/
theorem sum_map_eq_single_pred {α : Type} (n : Nat) :
    ∀ (l : List α) (g : α → Nat) (q : α → Bool),
      (∀ b ∈ l, q b = false → g b = 0) → (∀ b ∈ l, q b = true → g b = n) →
      l.countP q = 1 → (l.map g).sum = n := by
  intro l
  induction l with
  | nil =>
    intro g q _ _ hc
    exact absurd hc (by simp)
  | cons a t ih =>
    intro g q hz hone hc
    rw [List.countP_cons] at hc
    by_cases hqa : q a = true
    · rw [if_pos hqa] at hc
      have ht0 : t.countP q = 0 := by omega
      have hsum : (t.map g).sum = 0 := by
        apply List.sum_eq_zero
        intro x hx
        rcases List.mem_map.mp hx with ⟨b, hb, hbe⟩
        rw [← hbe]
        exact hz b (List.mem_cons_of_mem _ hb)
          (by simpa using List.countP_eq_zero.mp ht0 b hb)
      rw [List.map_cons, List.sum_cons, hsum, hone a (List.mem_cons_self _ _) hqa]
      omega
    · have hqa2 : q a = false := by simpa using hqa
      rw [if_neg (by simp [hqa2])] at hc
      rw [List.map_cons, List.sum_cons,
        hz a (List.mem_cons_self _ _) hqa2,
        ih g q (fun b hb => hz b (List.mem_cons_of_mem _ hb))
          (fun b hb => hone b (List.mem_cons_of_mem _ hb)) (by omega)]
      omega

/-- pushConn never changes the key list when the key is present, and
appends it otherwise. -/
theorem pushConn_keys (m : List (String × List ConnEntry)) (k : String) (e : ConnEntry) :
    (pushConn m k e).map Prod.fst
      = if m.any (fun kv => kv.1 == k) then m.map Prod.fst else m.map Prod.fst ++ [k] := by
  unfold pushConn
  split
  · rw [List.map_map]
    apply List.map_congr_left
    intro kv _
    simp only [Function.comp]
    split <;> rfl
  · simp

/-- An absent key is outside the key list. -/
theorem not_mem_keys_of_any_eq_false (m : List (String × List ConnEntry)) (k : String)
    (h : m.any (fun kv => kv.1 == k) = false) : k ∉ m.map Prod.fst := by
  intro hmem
  rcases List.mem_map.mp hmem with ⟨kv, hkv, hk⟩
  have : m.any (fun kv => kv.1 == k) = true :=
    List.any_eq_true.mpr ⟨kv, hkv, by rw [hk]; simp⟩
  rw [h] at this
  exact Bool.noConfusion this

/-- pushConn preserves distinctness of keys. -/
theorem pushConn_keys_nodup (m : List (String × List ConnEntry)) (k : String) (e : ConnEntry)
    (hnd : (m.map Prod.fst).Nodup) : ((pushConn m k e).map Prod.fst).Nodup := by
  rw [pushConn_keys]
  split
  · exact hnd
  · next h =>
    have hf : (m.any fun kv => kv.1 == k) = false := by
      cases hb : m.any fun kv => kv.1 == k
      · rfl
      · exact absurd hb h
    rw [List.nodup_append]
    exact ⟨hnd, List.nodup_singleton k,
      fun a ha hb => by
        simp only [List.mem_singleton] at hb
        subst hb
        exact not_mem_keys_of_any_eq_false m a hf ha⟩

/-- entriesFor distributes over append. -/
theorem entriesFor_append (m1 m2 : List (String × List ConnEntry)) (k : String) :
    entriesFor (m1 ++ m2) k = entriesFor m1 k ++ entriesFor m2 k := by
  simp [entriesFor, List.filter_append]

/-- entriesFor on a cons. -/
theorem entriesFor_cons (kv : String × List ConnEntry) (m : List (String × List ConnEntry))
    (k : String) :
    entriesFor (kv :: m) k = (if kv.1 == k then kv.2 else []) ++ entriesFor m k := by
  simp only [entriesFor, List.filter_cons]
  split
  · rfl
  · rfl

/-- entriesFor vanishes when the key is absent. -/
theorem entriesFor_eq_nil (m : List (String × List ConnEntry)) (k : String)
    (h : m.any (fun kv => kv.1 == k) = false) : entriesFor m k = [] := by
  induction m with
  | nil => rfl
  | cons kv rest ih =>
    simp only [List.any_cons, Bool.or_eq_false_iff] at h
    rw [entriesFor_cons, if_neg (by simp [h.1]), List.nil_append]
    exact ih h.2

/-- The update map of pushConn is the identity when the key is absent. -/
theorem map_upd_eq_of_no_key (k : String) (e : ConnEntry) :
    ∀ (m : List (String × List ConnEntry)), m.any (fun kv => kv.1 == k) = false →
      m.map (fun kv => if kv.1 == k then (kv.1, kv.2 ++ [e]) else kv) = m
  | [], _ => rfl
  | kv :: rest, h => by
    simp only [List.any_cons, Bool.or_eq_false_iff] at h
    rw [List.map_cons, if_neg (by simp [h.1]), map_upd_eq_of_no_key k e rest h.2]

/-- Updating an existing key appends the entry to exactly that key's
group. -/
theorem entriesFor_map_upd (k : String) (e : ConnEntry) :
    ∀ (m : List (String × List ConnEntry)), (m.map Prod.fst).Nodup →
      m.any (fun kv => kv.1 == k) = true → ∀ (k2 : String),
      entriesFor (m.map (fun kv => if kv.1 == k then (kv.1, kv.2 ++ [e]) else kv)) k2
        = entriesFor m k2 ++ (if k == k2 then [e] else [])
  | [], _, hany, _ => by simp at hany
  | kv :: rest, hnd, hany, k2 => by
    rw [List.map_cons]
    by_cases hk : (kv.1 == k) = true
    · have hkeq : kv.1 = k := by simpa using hk
      have hrest : rest.any (fun x => x.1 == k) = false := by
        rw [List.map_cons, List.nodup_cons] at hnd
        cases hb : rest.any (fun x => x.1 == k)
        · rfl
        · exfalso
          rcases List.any_eq_true.mp hb with ⟨x, hx, hxk⟩
          exact hnd.1 (by
            rw [hkeq, ← (show x.1 = k by simpa using hxk)]
            exact List.mem_map.mpr ⟨x, hx, rfl⟩)
      rw [if_pos hk, map_upd_eq_of_no_key k e rest hrest]
      rw [entriesFor_cons, entriesFor_cons]
      by_cases hk2 : (kv.1 == k2) = true
      · have hkk2 : k = k2 := by
          rw [← hkeq]
          simpa using hk2
        rw [if_pos hk2]
        simp only [if_pos hk2, if_pos (show (k == k2) = true by simp [hkk2])]
        rw [entriesFor_eq_nil rest k2 (by rwa [← hkk2])]
        simp
      · have hkk2 : (k == k2) = false := by
          rw [← hkeq]
          simpa using hk2
        rw [if_neg hk2, if_neg (by simp_all), hkk2]
        simp
    · rw [if_neg hk]
      have hany2 : rest.any (fun x => x.1 == k) = true := by
        rcases List.any_eq_true.mp hany with ⟨x, hx, hxk⟩
        rcases List.mem_cons.mp hx with rfl | hx2
        · exact absurd hxk hk
        · exact List.any_eq_true.mpr ⟨x, hx2, hxk⟩
      have hnd2 : (rest.map Prod.fst).Nodup := by
        rw [List.map_cons, List.nodup_cons] at hnd
        exact hnd.2
      rw [entriesFor_cons, entriesFor_cons,
        entriesFor_map_upd k e rest hnd2 hany2 k2, List.append_assoc]

/-- The full characterisation of one pushConn step on group contents. -/
theorem pushConn_entriesFor (m : List (String × List ConnEntry)) (k : String)
    (e : ConnEntry) (hnd : (m.map Prod.fst).Nodup) (k2 : String) :
    entriesFor (pushConn m k e) k2 = entriesFor m k2 ++ (if k == k2 then [e] else []) := by
  unfold pushConn
  split
  · next hany => exact entriesFor_map_upd k e m hnd hany k2
  · next hany =>
    rw [entriesFor_append, entriesFor_cons]
    simp [entriesFor]

/-- The grouping fold accumulates, per key, exactly the stream's
occurrences of that key in order. -/
theorem foldl_pushConn_entriesFor :
    ∀ (occs : List (String × ConnEntry)) (m : List (String × List ConnEntry)),
      (m.map Prod.fst).Nodup → ∀ (k : String),
      entriesFor (occs.foldl (fun acc kv => pushConn acc kv.1 kv.2) m) k
        = entriesFor m k ++ (occs.filter (fun oc => oc.1 == k)).map (fun oc => oc.2)
  | [], _, _, _ => by simp
  | oc :: occs, m, hnd, k => by
    rw [List.foldl_cons,
      foldl_pushConn_entriesFor occs (pushConn m oc.1 oc.2) (pushConn_keys_nodup _ _ _ hnd) k,
      pushConn_entriesFor m oc.1 oc.2 hnd k, List.filter_cons]
    split
    · simp [List.append_assoc]
    · simp

/-- The grouping fold keeps keys distinct. -/
theorem foldl_pushConn_keys_nodup :
    ∀ (occs : List (String × ConnEntry)) (m : List (String × List ConnEntry)),
      (m.map Prod.fst).Nodup →
      ((occs.foldl (fun acc kv => pushConn acc kv.1 kv.2) m).map Prod.fst).Nodup
  | [], _, hnd => hnd
  | oc :: occs, m, hnd =>
    foldl_pushConn_keys_nodup occs _ (pushConn_keys_nodup _ _ _ hnd)

/-- Keys of the connector map are distinct. -/
theorem connectorMap_keys_nodup (pr : ParseResult) :
    ((connectorMap pr).map Prod.fst).Nodup :=
  foldl_pushConn_keys_nodup (connectorEntries pr) [] (by simp)

/-- Group contents of the connector map are the matching occurrence
stream entries. -/
theorem connectorMap_entriesFor (pr : ParseResult) (k : String) :
    entriesFor (connectorMap pr) k
      = ((connectorEntries pr).filter (fun oc => oc.1 == k)).map (fun oc => oc.2) := by
  unfold connectorMap
  rw [foldl_pushConn_entriesFor (connectorEntries pr) [] (by simp) k]
  simp [entriesFor]

/-- With distinct keys, filtering a member's key gives the singleton. -/
theorem filter_key_of_mem_nodup :
    ∀ (m : List (String × List ConnEntry)) (kv : String × List ConnEntry),
      (m.map Prod.fst).Nodup → kv ∈ m → m.filter (fun x => x.1 == kv.1) = [kv]
  | [], kv, _, hkv => absurd hkv (List.not_mem_nil kv)
  | kv0 :: rest, kv, hnd, hkv => by
    rw [List.map_cons, List.nodup_cons] at hnd
    rcases List.mem_cons.mp hkv with rfl | hkv2
    · rw [List.filter_cons, if_pos (by simp)]
      have : rest.filter (fun x => x.1 == kv.1) = [] := by
        rw [List.filter_eq_nil_iff]
        intro x hx hq
        exact hnd.1 (by
          rw [← (by simpa using hq : x.1 = kv.1)]
          exact List.mem_map.mpr ⟨x, hx, rfl⟩)
      rw [this]
    · rw [List.filter_cons, if_neg (by
        simp only [beq_iff_eq]
        intro hq
        exact hnd.1 (by
          rw [hq]
          exact List.mem_map.mpr ⟨kv, hkv2, rfl⟩)),
        filter_key_of_mem_nodup rest kv hnd.2 hkv2]

/-- A connector-map group's contents, directly. -/
theorem connectorMap_group_eq (pr : ParseResult) (kv : String × List ConnEntry)
    (hkv : kv ∈ connectorMap pr) :
    kv.2 = ((connectorEntries pr).filter (fun oc => oc.1 == kv.1)).map (fun oc => oc.2) := by
  have h := connectorMap_entriesFor pr kv.1
  rw [entriesFor, filter_key_of_mem_nodup (connectorMap pr) kv (connectorMap_keys_nodup pr) hkv]
    at h
  simpa using h

/-- A key with occurrences in the stream owns a group in the map. -/
theorem connectorMap_key_exists (pr : ParseResult) (k : String)
    (h : ((connectorEntries pr).filter (fun oc => oc.1 == k)) ≠ []) :
    ∃ kv ∈ connectorMap pr, kv.1 = k := by
  by_contra hc
  push_neg at hc
  have hany : (connectorMap pr).any (fun kv => kv.1 == k) = false := by
    cases hb : (connectorMap pr).any (fun kv => kv.1 == k)
    · rfl
    · exfalso
      rcases List.any_eq_true.mp hb with ⟨kv, hkv, hq⟩
      exact hc kv hkv (by simpa using hq)
  have hnil := entriesFor_eq_nil (connectorMap pr) k hany
  rw [connectorMap_entriesFor pr k] at hnil
  exact h (by simpa using hnil)

/-- List containment from membership. -/
theorem contains_of_mem {a : String} {l : List String} (h : a ∈ l) : l.contains a = true :=
  List.elem_eq_true_of_mem h

/-- Membership from a count of one. -/
theorem mem_of_count_eq_one {a : String} {l : List String} (h : l.count a = 1) : a ∈ l :=
  List.count_pos_iff.mp (h ▸ Nat.one_pos)

/-- countP of a flatMap as the sum of blockwise counts. -/
theorem countP_flatMap_sum {α β : Type} (f : α → List β) (p : β → Bool) :
    ∀ (l : List α), (l.flatMap f).countP p = (l.map (fun a => (f a).countP p)).sum
  | [] => rfl
  | a :: l => by
    rw [List.flatMap_cons, List.countP_append, List.map_cons, List.sum_cons,
      countP_flatMap_sum f p l]

/-- Distinct clean pipeline names give distinct pipeline ids. -/
theorem pipelineId_ne (A B : OTelPipeline) (hAc : cleanPipeline A)
    (hBc : cleanPipeline B) (h : A.name ≠ B.name) : A.id ≠ B.id := by
  rw [hAc.1, hBc.1]
  intro he
  exact h (string_append_left_cancel he)

/-- Equal exporter-slot ids force equal pipeline names and equal
component names. -/
theorem exporter_id_eq_pipeline (p A : OTelPipeline) (x c : String)
    (hpc : cleanPipeline p) (hAc : cleanPipeline A)
    (h : exporterNodeId p x = exporterNodeId A c) : p.name = A.name ∧ x = c := by
  rw [exporterNodeId_shape p x hpc.1, exporterNodeId_shape A c hAc.1] at h
  have hinj := slotId_inj p.name "exporter" x A.name "exporter" c
    hpc.2 hAc.2 (by decide) (by decide) h
  exact ⟨hinj.1, hinj.2.2⟩

/-- Equal receiver-slot ids force equal pipeline names and equal
component names. -/
theorem receiver_id_eq_pipeline (p B : OTelPipeline) (r c : String)
    (hpc : cleanPipeline p) (hBc : cleanPipeline B)
    (h : receiverNodeId p r = receiverNodeId B c) : p.name = B.name ∧ r = c := by
  rw [receiverNodeId_shape p r hpc.1, receiverNodeId_shape B c hBc.1] at h
  have hinj := slotId_inj p.name "receiver" r B.name "receiver" c
    hpc.2 hBc.2 (by decide) (by decide) h
  exact ⟨hinj.1, hinj.2.2⟩

/-- An exporter-slot id never equals a receiver-slot id. -/
theorem exporter_receiver_id_ne (p B : OTelPipeline) (x c : String)
    (hpc : cleanPipeline p) (hBc : cleanPipeline B) :
    exporterNodeId p x ≠ receiverNodeId B c := by
  intro h
  rw [exporterNodeId_shape p x hpc.1, receiverNodeId_shape B c hBc.1] at h
  have hinj := slotId_inj p.name "exporter" x B.name "receiver" c
    hpc.2 hBc.2 (by decide) (by decide) h
  exact absurd hinj.2.1 (by decide)

/-- A processor-slot id never equals a receiver-slot id. -/
theorem processor_receiver_id_ne (p B : OTelPipeline) (x c : String)
    (hpc : cleanPipeline p) (hBc : cleanPipeline B) :
    processorNodeId p x ≠ receiverNodeId B c := by
  intro h
  rw [processorNodeId_shape p x hpc.1, receiverNodeId_shape B c hBc.1] at h
  have hinj := slotId_inj p.name "processor" x B.name "receiver" c
    hpc.2 hBc.2 (by decide) (by decide) h
  exact absurd hinj.2.1 (by decide)

/-- A connector occurrence record is a receiver or exporter slot of a
pipeline that actually references the key. -/
theorem connectorEntries_mem_elim (pr : ParseResult) (oc : String × ConnEntry)
    (hoc : oc ∈ connectorEntries pr) :
    ∃ p ∈ pr.pipelines,
      (oc.2 = { nodeId := receiverNodeId p oc.1, pipelineId := p.id, role := "receiver" }
        ∧ oc.1 ∈ p.receivers) ∨
      (oc.2 = { nodeId := exporterNodeId p oc.1, pipelineId := p.id, role := "exporter" }
        ∧ oc.1 ∈ p.exporters) := by
  rcases List.mem_flatMap.mp hoc with ⟨p, hp, hmem⟩
  rcases List.mem_append.mp hmem with h | h
  · rcases List.mem_map.mp h with ⟨r, hr, heq⟩
    subst heq
    exact ⟨p, hp, Or.inl ⟨rfl, (List.mem_filter.mp hr).1⟩⟩
  · rcases List.mem_map.mp h with ⟨x, hx, heq⟩
    subst heq
    exact ⟨p, hp, Or.inr ⟨rfl, (List.mem_filter.mp hx).1⟩⟩

/-- The receiver part of a pipeline contributes nothing to an
exporter-role count. -/
theorem recPart_expPred_zero (pr : ParseResult) (p : OTelPipeline) (c S : String) :
    ((p.receivers.filter (fun r => isConnectorName r pr.connectors)).map (fun r =>
        ((r, { nodeId := receiverNodeId p r, pipelineId := p.id, role := "receiver" })
          : String × ConnEntry))).countP
      (fun oc => oc.1 == c && oc.2.role == "exporter" && oc.2.nodeId == S) = 0 := by
  rw [List.countP_eq_zero]
  intro oc hoc
  rcases List.mem_map.mp hoc with ⟨r, _, heq⟩
  subst heq
  simp [(by decide : (("receiver" : String) == "exporter") = false)]

/-- The exporter part of a pipeline contributes nothing to a
receiver-role count. -/
theorem expPart_recPred_zero (pr : ParseResult) (p : OTelPipeline) (c S : String) :
    ((p.exporters.filter (fun x => isConnectorName x pr.connectors)).map (fun x =>
        ((x, { nodeId := exporterNodeId p x, pipelineId := p.id, role := "exporter" })
          : String × ConnEntry))).countP
      (fun oc => oc.1 == c && oc.2.role == "receiver" && oc.2.nodeId == S) = 0 := by
  rw [List.countP_eq_zero]
  intro oc hoc
  rcases List.mem_map.mp hoc with ⟨x, _, heq⟩
  subst heq
  simp [(by decide : (("exporter" : String) == "receiver") = false)]

/-- The exporter part of a foreign pipeline contributes nothing to the
count of slots at A's exporter node. -/
theorem expPart_pred_zero_of_ne (pr : ParseResult) (p A : OTelPipeline) (c : String)
    (hpc : cleanPipeline p) (hAc : cleanPipeline A) (hne : p.name ≠ A.name) :
    ((p.exporters.filter (fun x => isConnectorName x pr.connectors)).map (fun x =>
        ((x, { nodeId := exporterNodeId p x, pipelineId := p.id, role := "exporter" })
          : String × ConnEntry))).countP
      (fun oc => oc.1 == c && oc.2.role == "exporter" && oc.2.nodeId == exporterNodeId A c)
      = 0 := by
  rw [List.countP_eq_zero]
  intro oc hoc
  rcases List.mem_map.mp hoc with ⟨x, _, heq⟩
  subst heq
  have h3 : (exporterNodeId p x == exporterNodeId A c) = false := by
    cases hb : exporterNodeId p x == exporterNodeId A c
    · rfl
    · exact absurd (exporter_id_eq_pipeline p A x c hpc hAc (by simpa using hb)).1 hne
  simp [h3]

/-- The receiver part of a foreign pipeline contributes nothing to the
count of slots at B's receiver node. -/
theorem recPart_pred_zero_of_ne (pr : ParseResult) (p B : OTelPipeline) (c : String)
    (hpc : cleanPipeline p) (hBc : cleanPipeline B) (hne : p.name ≠ B.name) :
    ((p.receivers.filter (fun r => isConnectorName r pr.connectors)).map (fun r =>
        ((r, { nodeId := receiverNodeId p r, pipelineId := p.id, role := "receiver" })
          : String × ConnEntry))).countP
      (fun oc => oc.1 == c && oc.2.role == "receiver" && oc.2.nodeId == receiverNodeId B c)
      = 0 := by
  rw [List.countP_eq_zero]
  intro oc hoc
  rcases List.mem_map.mp hoc with ⟨r, _, heq⟩
  subst heq
  have h3 : (receiverNodeId p r == receiverNodeId B c) = false := by
    cases hb : receiverNodeId p r == receiverNodeId B c
    · rfl
    · exact absurd (receiver_id_eq_pipeline p B r c hpc hBc (by simpa using hb)).1 hne
  simp [h3]

/-- A's own exporter part counts its exporter references to the
connector. -/
theorem expPart_pred_count_A (pr : ParseResult) (A : OTelPipeline) (c : String)
    (hconn : isConnectorName c pr.connectors = true) :
    ((A.exporters.filter (fun x => isConnectorName x pr.connectors)).map (fun x =>
        ((x, { nodeId := exporterNodeId A x, pipelineId := A.id, role := "exporter" })
          : String × ConnEntry))).countP
      (fun oc => oc.1 == c && oc.2.role == "exporter" && oc.2.nodeId == exporterNodeId A c)
      = A.exporters.count c := by
  rw [List.countP_map, List.countP_filter, List.count_eq_countP]
  apply List.countP_congr
  intro x hx
  simp only [Function.comp]
  by_cases hxc : x = c
  · subst hxc
    simp [hconn]
  · simp [(by simpa using hxc : (x == c) = false)]

/-- B's own receiver part counts its receiver references to the
connector. -/
theorem recPart_pred_count_B (pr : ParseResult) (B : OTelPipeline) (c : String)
    (hconn : isConnectorName c pr.connectors = true) :
    ((B.receivers.filter (fun r => isConnectorName r pr.connectors)).map (fun r =>
        ((r, { nodeId := receiverNodeId B r, pipelineId := B.id, role := "receiver" })
          : String × ConnEntry))).countP
      (fun oc => oc.1 == c && oc.2.role == "receiver" && oc.2.nodeId == receiverNodeId B c)
      = B.receivers.count c := by
  rw [List.countP_map, List.countP_filter, List.count_eq_countP]
  apply List.countP_congr
  intro r hr
  simp only [Function.comp]
  by_cases hrc : r = c
  · subst hrc
    simp [hconn]
  · simp [(by simpa using hrc : (r == c) = false)]

/-- The occurrence stream holds exactly one exporter entry at A's
exporter node for the connector. -/
theorem connStream_countP_exporter (pr : ParseResult) (A : OTelPipeline) (c : String)
    (hclean : ∀ q ∈ pr.pipelines, cleanPipeline q)
    (hnames : (pr.pipelines.map (fun q => q.name)).Nodup)
    (hA : A ∈ pr.pipelines)
    (hconn : isConnectorName c pr.connectors = true)
    (hcA : A.exporters.count c = 1) :
    (connectorEntries pr).countP
      (fun oc => oc.1 == c && oc.2.role == "exporter" && oc.2.nodeId == exporterNodeId A c)
      = 1 := by
  unfold connectorEntries
  rw [countP_flatMap_sum]
  apply sum_map_eq_single_pred 1 pr.pipelines _ (fun q => q.name == A.name)
  · intro p hp hq
    rw [List.countP_append, recPart_expPred_zero,
      expPart_pred_zero_of_ne pr p A c (hclean p hp) (hclean A hA) (by simpa using hq)]
  · intro p hp hq
    have hpA : p = A := List.inj_on_of_nodup_map hnames hp hA (by simpa using hq)
    subst hpA
    rw [List.countP_append, recPart_expPred_zero, expPart_pred_count_A pr p c hconn, hcA]
  · have h1 : (pr.pipelines.map (fun q => q.name)).count A.name = 1 :=
      List.count_eq_one_of_mem hnames (List.mem_map.mpr ⟨A, hA, rfl⟩)
    rw [List.count_eq_countP, List.countP_map] at h1
    exact h1

/-- The occurrence stream holds exactly one receiver entry at B's
receiver node for the connector. -/
theorem connStream_countP_receiver (pr : ParseResult) (B : OTelPipeline) (c : String)
    (hclean : ∀ q ∈ pr.pipelines, cleanPipeline q)
    (hnames : (pr.pipelines.map (fun q => q.name)).Nodup)
    (hB : B ∈ pr.pipelines)
    (hconn : isConnectorName c pr.connectors = true)
    (hcB : B.receivers.count c = 1) :
    (connectorEntries pr).countP
      (fun oc => oc.1 == c && oc.2.role == "receiver" && oc.2.nodeId == receiverNodeId B c)
      = 1 := by
  unfold connectorEntries
  rw [countP_flatMap_sum]
  apply sum_map_eq_single_pred 1 pr.pipelines _ (fun q => q.name == B.name)
  · intro p hp hq
    rw [List.countP_append, expPart_recPred_zero,
      recPart_pred_zero_of_ne pr p B c (hclean p hp) (hclean B hB) (by simpa using hq)]
  · intro p hp hq
    have hpB : p = B := List.inj_on_of_nodup_map hnames hp hB (by simpa using hq)
    subst hpB
    rw [List.countP_append, expPart_recPred_zero, recPart_pred_count_B pr p c hconn, hcB]
  · have h1 : (pr.pipelines.map (fun q => q.name)).count B.name = 1 :=
      List.count_eq_one_of_mem hnames (List.mem_map.mpr ⟨B, hB, rfl⟩)
    rw [List.count_eq_countP, List.countP_map] at h1
    exact h1

/-- crossProtoEdges with its lets unfolded. -/
theorem crossProtoEdges_eq (pr : ParseResult) :
    crossProtoEdges pr = (connectorMap pr).flatMap (fun kv =>
      (kv.2.filter (fun n => n.role == "exporter")).flatMap (fun x =>
        (kv.2.filter (fun n => n.role == "receiver")).filterMap (fun y =>
          if x.pipelineId != y.pipelineId then
            some { idSuffix := "connector-" ++ kv.1 ++ "-" ++ x.pipelineId ++ "-" ++ y.pipelineId
                   source := x.nodeId, target := y.nodeId, stroke := "#f59e0b"
                   dashed := true, label := some kv.1 }
          else none))) := rfl

/-- Every entry of a connector-map group is an occurrence-stream entry
under the group key. -/
theorem connectorMap_entry_mem (pr : ParseResult) (kv : String × List ConnEntry)
    (hkv : kv ∈ connectorMap pr) (n : ConnEntry) (hn : n ∈ kv.2) :
    ∃ oc ∈ connectorEntries pr, oc.1 = kv.1 ∧ oc.2 = n := by
  rw [connectorMap_group_eq pr kv hkv] at hn
  rcases List.mem_map.mp hn with ⟨oc, hoc, hoc2⟩
  have hf := List.mem_filter.mp hoc
  exact ⟨oc, hf.1, by simpa using hf.2, hoc2⟩

/-- Exporter entries of a foreign connector group never sit at A's
exporter slot for the connector. -/
theorem group_exp_nodeId_ne (pr : ParseResult) (A : OTelPipeline) (c : String)
    (hclean : ∀ q ∈ pr.pipelines, cleanPipeline q) (hAc : cleanPipeline A)
    (kv : String × List ConnEntry) (hkv : kv ∈ connectorMap pr) (hne : kv.1 ≠ c)
    (x : ConnEntry) (hx : x ∈ kv.2.filter (fun n => n.role == "exporter")) :
    x.nodeId ≠ exporterNodeId A c := by
  intro hS
  rcases List.mem_filter.mp hx with ⟨hx2, hrole⟩
  rcases connectorMap_entry_mem pr kv hkv x hx2 with ⟨oc, hoc, hk, hv⟩
  rcases connectorEntries_mem_elim pr oc hoc with ⟨p, hp, hcase | hcase⟩
  · rw [hv] at hcase
    have hfalse : (("receiver" : String) == "exporter") = true := by
      rw [hcase.1] at hrole
      exact hrole
    exact absurd hfalse (by decide)
  · rw [hv] at hcase
    have hnode : exporterNodeId p oc.1 = exporterNodeId A c := by
      rw [hcase.1] at hS
      exact hS
    exact hne (hk ▸ (exporter_id_eq_pipeline p A oc.1 c (hclean p hp) hAc hnode).2)

/-- An exporter entry of the connector group sitting at A's exporter
slot belongs to pipeline A. -/
theorem group_exp_pipelineId (pr : ParseResult) (A : OTelPipeline) (c : String)
    (hclean : ∀ q ∈ pr.pipelines, cleanPipeline q)
    (hnames : (pr.pipelines.map (fun q => q.name)).Nodup) (hA : A ∈ pr.pipelines)
    (kv : String × List ConnEntry) (hkv : kv ∈ connectorMap pr)
    (x : ConnEntry) (hx : x ∈ kv.2.filter (fun n => n.role == "exporter"))
    (hS : x.nodeId = exporterNodeId A c) : x.pipelineId = A.id := by
  rcases List.mem_filter.mp hx with ⟨hx2, hrole⟩
  rcases connectorMap_entry_mem pr kv hkv x hx2 with ⟨oc, hoc, _, hv⟩
  rcases connectorEntries_mem_elim pr oc hoc with ⟨p, hp, hcase | hcase⟩
  · rw [hv] at hcase
    have hfalse : (("receiver" : String) == "exporter") = true := by
      rw [hcase.1] at hrole
      exact hrole
    exact absurd hfalse (by decide)
  · rw [hv] at hcase
    have hnode : exporterNodeId p oc.1 = exporterNodeId A c := by
      rw [hcase.1] at hS
      exact hS
    have hpA : p = A := List.inj_on_of_nodup_map hnames hp hA
      (exporter_id_eq_pipeline p A oc.1 c (hclean p hp) (hclean A hA) hnode).1
    rw [hcase.1]
    show p.id = A.id
    rw [hpA]

/-- A receiver entry of the connector group sitting at B's receiver
slot belongs to pipeline B. -/
theorem group_rec_pipelineId (pr : ParseResult) (B : OTelPipeline) (c : String)
    (hclean : ∀ q ∈ pr.pipelines, cleanPipeline q)
    (hnames : (pr.pipelines.map (fun q => q.name)).Nodup) (hB : B ∈ pr.pipelines)
    (kv : String × List ConnEntry) (hkv : kv ∈ connectorMap pr)
    (y : ConnEntry) (hy : y ∈ kv.2.filter (fun n => n.role == "receiver"))
    (hT : y.nodeId = receiverNodeId B c) : y.pipelineId = B.id := by
  rcases List.mem_filter.mp hy with ⟨hy2, hrole⟩
  rcases connectorMap_entry_mem pr kv hkv y hy2 with ⟨oc, hoc, _, hv⟩
  rcases connectorEntries_mem_elim pr oc hoc with ⟨p, hp, hcase | hcase⟩
  · rw [hv] at hcase
    have hnode : receiverNodeId p oc.1 = receiverNodeId B c := by
      rw [hcase.1] at hT
      exact hT
    have hpB : p = B := List.inj_on_of_nodup_map hnames hp hB
      (receiver_id_eq_pipeline p B oc.1 c (hclean p hp) (hclean B hB) hnode).1
    rw [hcase.1]
    show p.id = B.id
    rw [hpB]
  · rw [hv] at hcase
    have hfalse : (("exporter" : String) == "receiver") = true := by
      rw [hcase.1] at hrole
      exact hrole
    exact absurd hfalse (by decide)

/-- The connector group holds exactly one exporter entry at A's
exporter slot. -/
theorem group_exps_count (pr : ParseResult) (A : OTelPipeline) (c : String)
    (hclean : ∀ q ∈ pr.pipelines, cleanPipeline q)
    (hnames : (pr.pipelines.map (fun q => q.name)).Nodup)
    (hA : A ∈ pr.pipelines)
    (hconn : isConnectorName c pr.connectors = true)
    (hcA : A.exporters.count c = 1)
    (kv : String × List ConnEntry) (hkv : kv ∈ connectorMap pr) (hk : kv.1 = c) :
    (kv.2.filter (fun n => n.role == "exporter")).countP
      (fun n => n.nodeId == exporterNodeId A c) = 1 := by
  rw [List.countP_filter, connectorMap_group_eq pr kv hkv, List.countP_map,
    List.countP_filter, hk]
  rw [List.countP_congr
    (q := fun oc => oc.1 == c && oc.2.role == "exporter" && oc.2.nodeId == exporterNodeId A c) ?_]
  · exact connStream_countP_exporter pr A c hclean hnames hA hconn hcA
  · intro oc _
    simp only [Function.comp, Bool.and_eq_true]
    tauto

/-- The connector group holds exactly one receiver entry at B's
receiver slot. -/
theorem group_recs_count (pr : ParseResult) (B : OTelPipeline) (c : String)
    (hclean : ∀ q ∈ pr.pipelines, cleanPipeline q)
    (hnames : (pr.pipelines.map (fun q => q.name)).Nodup)
    (hB : B ∈ pr.pipelines)
    (hconn : isConnectorName c pr.connectors = true)
    (hcB : B.receivers.count c = 1)
    (kv : String × List ConnEntry) (hkv : kv ∈ connectorMap pr) (hk : kv.1 = c) :
    (kv.2.filter (fun n => n.role == "receiver")).countP
      (fun n => n.nodeId == receiverNodeId B c) = 1 := by
  rw [List.countP_filter, connectorMap_group_eq pr kv hkv, List.countP_map,
    List.countP_filter, hk]
  rw [List.countP_congr
    (q := fun oc => oc.1 == c && oc.2.role == "receiver" && oc.2.nodeId == receiverNodeId B c) ?_]
  · exact connStream_countP_receiver pr B c hclean hnames hB hconn hcB
  · intro oc _
    simp only [Function.comp, Bool.and_eq_true]
    tauto

/-- An inner connector loop at a foreign source node counts nothing. -/
theorem countP_inner_zero (k S T : String) (x : ConnEntry)
    (hS : (x.nodeId == S) = false) (recs : List ConnEntry) :
    ((recs.filterMap (fun y =>
        if x.pipelineId != y.pipelineId then
          some ({ idSuffix := "connector-" ++ k ++ "-" ++ x.pipelineId ++ "-" ++ y.pipelineId
                  source := x.nodeId, target := y.nodeId, stroke := "#f59e0b"
                  dashed := true, label := some k } : ProtoEdge)
        else none)).countP (fun e => e.source == S && e.target == T)) = 0 := by
  rw [List.countP_eq_zero]
  intro e he
  rcases List.mem_filterMap.mp he with ⟨y, _, hye⟩
  split at hye
  · rw [← Option.some.inj hye]
    simp [hS]
  · exact absurd hye (by simp)

/-- The inner connector loop at the matching source node counts one
edge per receiver entry at the target node, provided every such entry
lies in a different pipeline than the source. -/
theorem countP_inner_one (k S T : String) (x : ConnEntry) (hS : x.nodeId = S) :
    ∀ (recs : List ConnEntry), (∀ y ∈ recs, y.nodeId = T → ¬ x.pipelineId = y.pipelineId) →
      ((recs.filterMap (fun y =>
          if x.pipelineId != y.pipelineId then
            some ({ idSuffix := "connector-" ++ k ++ "-" ++ x.pipelineId ++ "-" ++ y.pipelineId
                    source := x.nodeId, target := y.nodeId, stroke := "#f59e0b"
                    dashed := true, label := some k } : ProtoEdge)
          else none)).countP (fun e => e.source == S && e.target == T))
        = recs.countP (fun y => y.nodeId == T)
  | [], _ => rfl
  | y :: recs, hg => by
    by_cases hp : (x.pipelineId != y.pipelineId) = true
    · simp only [List.filterMap_cons, if_pos hp, List.countP_cons,
        countP_inner_one k S T x hS recs (fun z hz => hg z (List.mem_cons_of_mem _ hz))]
      simp [hS]
    · have hpe : x.pipelineId = y.pipelineId := by simpa using hp
      have hyT : (y.nodeId == T) = false := by
        cases hb : y.nodeId == T
        · rfl
        · exact absurd hpe (hg y (List.mem_cons_self y recs) (by simpa using hb))
      simp only [List.filterMap_cons, if_neg hp, List.countP_cons,
        countP_inner_one k S T x hS recs (fun z hz => hg z (List.mem_cons_of_mem _ hz)), hyT]
      simp

/-- No sequential pipeline edge ever targets a receiver slot. -/
theorem pipelineChunk_zero (pr : ParseResult) (B : OTelPipeline) (c S : String)
    (hclean : ∀ q ∈ pr.pipelines, cleanPipeline q) (hBc : cleanPipeline B) :
    ((pr.pipelines.flatMap (fun p => pipelineProtoEdges pr p)).countP
      (fun pe => pe.source == S && pe.target == receiverNodeId B c)) = 0 := by
  rw [List.countP_eq_zero]
  intro pe hpe
  rcases List.mem_flatMap.mp hpe with ⟨q, hq, he⟩
  have htar : pe.target ≠ receiverNodeId B c := by
    rcases pipelineProtoEdges_target_shape pr q pe he with ⟨x, _, ht⟩ | ⟨x, _, ht⟩
    · rw [ht]
      exact processor_receiver_id_ne q B x c (hclean q hq) hBc
    · rw [ht]
      exact exporter_receiver_id_ne q B x c (hclean q hq) hBc
  intro hcontra
  exact htar (by simpa using ((Bool.and_eq_true _ _).mp hcontra).2)

/-- The cross-pipeline chunk holds exactly one edge from A's exporter
slot to B's receiver slot for a once-referenced connector. -/
theorem crossChunk_count (pr : ParseResult) (A B : OTelPipeline) (c : String)
    (hclean : ∀ q ∈ pr.pipelines, cleanPipeline q)
    (hnames : (pr.pipelines.map (fun q => q.name)).Nodup)
    (hA : A ∈ pr.pipelines) (hB : B ∈ pr.pipelines) (hABname : A.name ≠ B.name)
    (hconn : isConnectorName c pr.connectors = true)
    (hcA : A.exporters.count c = 1) (hcB : B.receivers.count c = 1) :
    ((crossProtoEdges pr).countP
      (fun pe => pe.source == exporterNodeId A c && pe.target == receiverNodeId B c)) = 1 := by
  rw [crossProtoEdges_eq, countP_flatMap_sum]
  apply sum_map_eq_single_pred 1 (connectorMap pr) _ (fun kv => kv.1 == c)
  · intro kv hkv hq
    have hne : kv.1 ≠ c := by simpa using hq
    rw [countP_flatMap_sum]
    apply List.sum_eq_zero
    intro m hm
    rcases List.mem_map.mp hm with ⟨x, hx, rfl⟩
    refine countP_inner_zero kv.1 _ _ x ?_ _
    cases hbb : x.nodeId == exporterNodeId A c
    · rfl
    · exact absurd (by simpa using hbb)
        (group_exp_nodeId_ne pr A c hclean (hclean A hA) kv hkv hne x hx)
  · intro kv hkv hq
    have hk : kv.1 = c := by simpa using hq
    rw [countP_flatMap_sum]
    apply sum_map_eq_single_pred 1 _ _ (fun n => n.nodeId == exporterNodeId A c)
    · intro x _ hq2
      exact countP_inner_zero kv.1 _ _ x hq2 _
    · intro x hx hq2
      have hxS : x.nodeId = exporterNodeId A c := by simpa using hq2
      rw [countP_inner_one kv.1 (exporterNodeId A c) (receiverNodeId B c) x hxS _ ?_]
      · exact group_recs_count pr B c hclean hnames hB hconn hcB kv hkv hk
      · intro y hy hyT
        have hxA : x.pipelineId = A.id :=
          group_exp_pipelineId pr A c hclean hnames hA kv hkv x hx hxS
        have hyB : y.pipelineId = B.id :=
          group_rec_pipelineId pr B c hclean hnames hB kv hkv y hy hyT
        rw [hxA, hyB]
        exact pipelineId_ne A B (hclean A hA) (hclean B hB) hABname
    · exact group_exps_count pr A c hclean hnames hA hconn hcA kv hkv hk
  · have hfne : ((connectorEntries pr).filter (fun oc => oc.1 == c)) ≠ [] := by
      have hcmem : c ∈ A.exporters := mem_of_count_eq_one hcA
      have h0 : ((c, { nodeId := exporterNodeId A c, pipelineId := A.id, role := "exporter" })
          : String × ConnEntry) ∈ connectorEntries pr :=
        List.mem_flatMap.mpr ⟨A, hA, List.mem_append.mpr (Or.inr
          (List.mem_map.mpr ⟨c, List.mem_filter.mpr ⟨hcmem, hconn⟩, rfl⟩))⟩
      exact List.ne_nil_of_mem (List.mem_filter.mpr ⟨h0, by simp⟩)
    rcases connectorMap_key_exists pr c hfne with ⟨kv, hkv, hk⟩
    have hmemk : c ∈ (connectorMap pr).map Prod.fst :=
      hk ▸ List.mem_map.mpr ⟨kv, hkv, rfl⟩
    have h1 : ((connectorMap pr).map Prod.fst).count c = 1 :=
      List.count_eq_one_of_mem (connectorMap_keys_nodup pr) hmemk
    rw [List.count_eq_countP, List.countP_map] at h1
    exact h1

/-- The missing-pipelines check has a fixed message. -/
theorem missingPipelines_message (srv : JValue) (doc : YNode) (d : ValidationError)
    (hd : d ∈ missingPipelinesErrors srv doc) :
    d.message = "Missing required \"service.pipelines\" section" := by
  unfold missingPipelinesErrors at hd
  split at hd
  · rw [List.mem_singleton] at hd
    subst hd
    rfl
  · exact absurd hd (List.not_mem_nil d)

/-- Every per-pipeline diagnostic message starts with the pipeline
prefix. -/
theorem pipelineRefErrors_message (rn pn en : List String) (p : OTelPipeline)
    (d : ValidationError) (hd : d ∈ pipelineRefErrors rn pn en p) :
    ∃ y, d.message = "Pipeline \"" ++ y := by
  unfold pipelineRefErrors at hd
  rcases List.mem_append.mp hd with hd | hd
  · rcases List.mem_append.mp hd with hd | hd
    · rcases List.mem_append.mp hd with hd | hd
      · rcases List.mem_append.mp hd with hd | hd
        · rcases List.mem_map.mp hd with ⟨r, _, heq⟩
          subst heq
          refine ⟨p.name ++ ("\" references undefined receiver \"" ++ (r ++ "\"")), ?_⟩
          show "Pipeline \"" ++ p.name ++ "\" references undefined receiver \"" ++ r ++ "\""
            = "Pipeline \"" ++ (p.name ++ ("\" references undefined receiver \"" ++ (r ++ "\"")))
          simp only [String.append_assoc]
        · rcases List.mem_map.mp hd with ⟨r, _, heq⟩
          subst heq
          refine ⟨p.name ++ ("\" references undefined processor \"" ++ (r ++ "\"")), ?_⟩
          show "Pipeline \"" ++ p.name ++ "\" references undefined processor \"" ++ r ++ "\""
            = "Pipeline \"" ++ (p.name ++ ("\" references undefined processor \"" ++ (r ++ "\"")))
          simp only [String.append_assoc]
      · rcases List.mem_map.mp hd with ⟨r, _, heq⟩
        subst heq
        refine ⟨p.name ++ ("\" references undefined exporter \"" ++ (r ++ "\"")), ?_⟩
        show "Pipeline \"" ++ p.name ++ "\" references undefined exporter \"" ++ r ++ "\""
          = "Pipeline \"" ++ (p.name ++ ("\" references undefined exporter \"" ++ (r ++ "\"")))
        simp only [String.append_assoc]
    · split at hd
      · rw [List.mem_singleton] at hd
        subst hd
        refine ⟨p.name ++ "\" has no receivers defined", ?_⟩
        show "Pipeline \"" ++ p.name ++ "\" has no receivers defined"
          = "Pipeline \"" ++ (p.name ++ "\" has no receivers defined")
        rw [String.append_assoc]
      · exact absurd hd (List.not_mem_nil d)
  · split at hd
    · rw [List.mem_singleton] at hd
      subst hd
      refine ⟨p.name ++ "\" has no exporters defined", ?_⟩
      show "Pipeline \"" ++ p.name ++ "\" has no exporters defined"
        = "Pipeline \"" ++ (p.name ++ "\" has no exporters defined")
      rw [String.append_assoc]
    · exact absurd hd (List.not_mem_nil d)

/-- Undefined-extension errors start with the service prefix. -/
theorem undefinedExtensionErrors_message (en ex : List String) (doc : YNode)
    (d : ValidationError) (hd : d ∈ undefinedExtensionErrors en ex doc) :
    ∃ y, d.message = "Service references undefined extension \"" ++ y := by
  unfold undefinedExtensionErrors at hd
  rcases List.mem_map.mp hd with ⟨x, _, heq⟩
  subst heq
  refine ⟨x ++ "\"", ?_⟩
  show "Service references undefined extension \"" ++ x ++ "\""
    = "Service references undefined extension \"" ++ (x ++ "\"")
  rw [String.append_assoc]

/-- Unused-component warnings expose their component, its absence from
the used set, and their message shape. -/
theorem unusedComponentWarnings_message (kw pre : String) (comps : List OTelComponent)
    (used : List String) (d : ValidationError)
    (hd : d ∈ unusedComponentWarnings kw pre comps used) :
    ∃ r ∈ comps, used.contains r.fullName = false ∧
      d.message = kw ++ " \"" ++ r.fullName ++ "\" is defined but not used in any pipeline" := by
  unfold unusedComponentWarnings at hd
  rcases List.mem_map.mp hd with ⟨r, hr, heq⟩
  subst heq
  rcases List.mem_filter.mp hr with ⟨hrc, hru⟩
  refine ⟨r, hrc, ?_, rfl⟩
  cases hb : used.contains r.fullName
  · rfl
  · rw [hb] at hru
    exact Bool.noConfusion hru

/-- Not-enabled-extension warnings start with the extension prefix. -/
theorem unusedExtensionWarnings_message (exts : List OTelComponent) (en : List String)
    (d : ValidationError) (hd : d ∈ unusedExtensionWarnings exts en) :
    ∃ y, d.message = "Extension \"" ++ y := by
  unfold unusedExtensionWarnings at hd
  rcases List.mem_map.mp hd with ⟨x, _, heq⟩
  subst heq
  refine ⟨x.fullName ++ "\" is defined but not enabled in service.extensions", ?_⟩
  show "Extension \"" ++ x.fullName ++ "\" is defined but not enabled in service.extensions"
    = "Extension \"" ++ (x.fullName ++ "\" is defined but not enabled in service.extensions")
  rw [String.append_assoc]

/-- A connector referenced as an exporter of one pipeline and a
receiver of another is never reported by the unused-receiver or
unused-exporter warnings, nor by any other diagnostic carrying their
message. -/
theorem validate_no_connector_unused_message
    (config : JValue) (receivers processors exporters connectors extensions : List OTelComponent)
    (pipelines : List OTelPipeline) (enabledExtensions : List String) (doc : YNode)
    (A B : OTelPipeline) (c : String)
    (hA : A ∈ pipelines) (hB : B ∈ pipelines)
    (hcA : c ∈ A.exporters) (hcB : c ∈ B.receivers)
    (d : ValidationError)
    (hd : d ∈ validateConfig config receivers processors exporters connectors extensions
      pipelines enabledExtensions doc) :
    d.message ≠ "Receiver \"" ++ c ++ "\" is defined but not used in any pipeline" ∧
    d.message ≠ "Exporter \"" ++ c ++ "\" is defined but not used in any pipeline" := by
  unfold validateConfig at hd
  split at hd
  · rw [List.mem_singleton] at hd
    subst hd
    refine ⟨?_, ?_⟩
    · show ("Missing required \"service\" section" : String)
        ≠ "Receiver \"" ++ c ++ "\" is defined but not used in any pipeline"
      simp only [String.append_assoc]
      exact string_ne_append _ _ _ 1 (by decide) (by decide)
    · show ("Missing required \"service\" section" : String)
        ≠ "Exporter \"" ++ c ++ "\" is defined but not used in any pipeline"
      simp only [String.append_assoc]
      exact string_ne_append _ _ _ 1 (by decide) (by decide)
  · rcases List.mem_append.mp hd with hd | hd
    · rcases List.mem_append.mp hd with hd | hd
      · rcases List.mem_append.mp hd with hd | hd
        · rcases List.mem_append.mp hd with hd | hd
          · rcases List.mem_append.mp hd with hd | hd
            · rcases List.mem_append.mp hd with hd | hd
              · rw [missingPipelines_message _ _ _ hd]
                refine ⟨?_, ?_⟩
                · simp only [String.append_assoc]
                  exact string_ne_append _ _ _ 1 (by decide) (by decide)
                · simp only [String.append_assoc]
                  exact string_ne_append _ _ _ 1 (by decide) (by decide)
              · rcases List.mem_flatMap.mp hd with ⟨p, _, hdp⟩
                rcases pipelineRefErrors_message _ _ _ _ _ hdp with ⟨y, hy⟩
                rw [hy]
                refine ⟨?_, ?_⟩
                · simp only [String.append_assoc]
                  exact string_append_ne _ _ _ _ 1 (by decide) (by decide) (by decide)
                · simp only [String.append_assoc]
                  exact string_append_ne _ _ _ _ 1 (by decide) (by decide) (by decide)
            · rcases undefinedExtensionErrors_message _ _ _ _ hd with ⟨y, hy⟩
              rw [hy]
              refine ⟨?_, ?_⟩
              · simp only [String.append_assoc]
                exact string_append_ne _ _ _ _ 1 (by decide) (by decide) (by decide)
              · simp only [String.append_assoc]
                exact string_append_ne _ _ _ _ 1 (by decide) (by decide) (by decide)
          · rcases unusedComponentWarnings_message _ _ _ _ _ hd with ⟨r, _, hru, hm⟩
            rw [hm]
            refine ⟨?_, ?_⟩
            · intro heq
              rw [(by decide : ("Receiver" : String) ++ " \"" = "Receiver \"")] at heq
              have hrc := string_sandwich_cancel heq
              have hcm : (pipelines.flatMap (fun p => p.receivers)).contains c = true :=
                contains_of_mem (List.mem_flatMap.mpr ⟨B, hB, hcB⟩)
              rw [hrc] at hru
              exact Bool.noConfusion (hru.symm.trans hcm)
            · simp only [String.append_assoc]
              exact string_append_ne _ _ _ _ 1 (by decide) (by decide) (by decide)
        · rcases unusedComponentWarnings_message _ _ _ _ _ hd with ⟨r, _, _, hm⟩
          rw [hm]
          refine ⟨?_, ?_⟩
          · simp only [String.append_assoc]
            exact string_append_ne _ _ _ _ 1 (by decide) (by decide) (by decide)
          · simp only [String.append_assoc]
            exact string_append_ne _ _ _ _ 1 (by decide) (by decide) (by decide)
      · rcases unusedComponentWarnings_message _ _ _ _ _ hd with ⟨r, _, hru, hm⟩
        rw [hm]
        refine ⟨?_, ?_⟩
        · simp only [String.append_assoc]
          exact string_append_ne _ _ _ _ 1 (by decide) (by decide) (by decide)
        · intro heq
          rw [(by decide : ("Exporter" : String) ++ " \"" = "Exporter \"")] at heq
          have hrc := string_sandwich_cancel heq
          have hcm : (pipelines.flatMap (fun p => p.exporters)).contains c = true :=
            contains_of_mem (List.mem_flatMap.mpr ⟨A, hA, hcA⟩)
          rw [hrc] at hru
          exact Bool.noConfusion (hru.symm.trans hcm)
    · rcases unusedExtensionWarnings_message _ _ _ hd with ⟨y, hy⟩
      rw [hy]
      refine ⟨?_, ?_⟩
      · simp only [String.append_assoc]
        exact string_append_ne _ _ _ _ 1 (by decide) (by decide) (by decide)
      · simp only [String.append_assoc]
        exact string_append_ne _ _ _ _ 3 (by decide) (by decide) (by decide)

/-- C6 (amended): for a connector identifier referenced exactly once as
an exporter of pipeline A and exactly once as a receiver of pipeline
B ≠ A, (a) no diagnostic of the validator carries the unused-Receiver
or unused-Exporter message for that identifier (a same-named component
of another kind, such as a processor, may still be warned about), and
(b) the built graph contains exactly one edge from A's exporter-role
node to B's receiver-role node.  Side conditions: pipeline ids have the
extractor shape and names are dash-free and pairwise distinct. -/
theorem c6_connector_exemption_and_single_cross_edge
    (pr : ParseResult) (A B : OTelPipeline) (c : String)
    (hclean : ∀ q ∈ pr.pipelines, cleanPipeline q)
    (hnames : (pr.pipelines.map (fun q => q.name)).Nodup)
    (hA : A ∈ pr.pipelines) (hB : B ∈ pr.pipelines) (hABname : A.name ≠ B.name)
    (hconn : isConnectorName c pr.connectors = true)
    (hcA : A.exporters.count c = 1) (hcB : B.receivers.count c = 1) :
    (∀ (config : JValue) (receivers processors exporters extensions : List OTelComponent)
        (enabledExtensions : List String) (doc : YNode),
      ∀ d ∈ validateConfig config receivers processors exporters pr.connectors extensions
          pr.pipelines enabledExtensions doc,
        d.message ≠ "Receiver \"" ++ c ++ "\" is defined but not used in any pipeline" ∧
        d.message ≠ "Exporter \"" ++ c ++ "\" is defined but not used in any pipeline") ∧
    ((buildGraph pr).edges.countP
      (fun e => e.source == exporterNodeId A c && e.target == receiverNodeId B c)) = 1 := by
  constructor
  · intro config receivers processors exporters extensions enabledExtensions doc d hd
    exact validate_no_connector_unused_message config receivers processors exporters
      pr.connectors extensions pr.pipelines enabledExtensions doc A B c hA hB
      (mem_of_count_eq_one hcA) (mem_of_count_eq_one hcB) d hd
  · show ((generateFlowElements pr pr.errors).edges.countP
      (fun e => e.source == exporterNodeId A c && e.target == receiverNodeId B c)) = 1
    rw [countP_edges_ST, List.countP_append,
      pipelineChunk_zero pr B c (exporterNodeId A c) hclean (hclean B hB),
      crossChunk_count pr A B c hclean hnames hA hB hABname hconn hcA hcB]

/-- C6 witness: the amended statement discharged at a concrete
two-pipeline configuration whose connector is referenced once on each
side; the cross edge count evaluates to one. -/
theorem c6_connector_exemption_witness :
    isConnectorName "spanmetrics" prC6.connectors = true ∧
    ((buildGraph prC6).edges.countP
      (fun e => e.source == exporterNodeId pC6A "spanmetrics"
        && e.target == receiverNodeId pC6B "spanmetrics")) = 1 :=
  ⟨by decide,
    (c6_connector_exemption_and_single_cross_edge prC6 pC6A pC6B "spanmetrics"
      (by decide) (by decide) (by decide) (by decide) (by decide) (by decide)
      (by decide) (by decide)).2⟩

/-- C6 counterexample to the literal claim: in the spanmetrics scenario
the connector identifier is used as an exporter of the traces pipeline
(twice) and as a receiver of the metrics pipeline, the pipelines
differ, yet the identifier appears in a defined-but-not-used warning
(raised for the same-named processor), and the graph holds two cross
edges from the traces exporter node to the metrics receiver node, not
exactly one. -/
theorem c6_counterexample_processor_warning_and_double_edge :
    (connRes.connectors.map (fun x => x.fullName)) = ["spanmetrics"] ∧
    (∃ A ∈ connRes.pipelines, ∃ B ∈ connRes.pipelines, A.name ≠ B.name ∧
      "spanmetrics" ∈ A.exporters ∧ "spanmetrics" ∈ B.receivers) ∧
    (∃ d ∈ connRes.errors,
      d.message = "Processor \"spanmetrics\" is defined but not used in any pipeline") ∧
    ((buildGraph connRes).edges.countP (fun e =>
      e.source == "pipeline-traces-exporter-spanmetrics"
        && e.target == "pipeline-metrics-receiver-spanmetrics")) = 2 := by
  refine ⟨by decide, ?_, by decide, by decide⟩
  decide

end OtelPlayground
